import Mathlib

/-!
Shallow embedding of the BestSource video engine core (`videosource.cpp` and
the shared cache-file helpers) used to check the natural-language
specification against the code.  Machine integers of the source
(`int`, `int64_t`, `size_t`) are modelled as `Int`/`Nat`; C++ `/` on
integers is `Int.tdiv` (truncation toward zero); `std::vector`/`std::list`
become `List`.
-/

namespace BestSourceModel

/-- An 8-byte frame content hash (`std::array<uint8_t, HashSize>`). -/
abbrev FrameHash := List Nat

/-- One per-frame record of the track index
(`VideoTrackIndex::FrameInfo` as filled in `BestVideoSource::IndexTrack`). -/
structure FrameInfo where
  pts : Int
  repeatPict : Int
  keyFrame : Bool
  tff : Bool
  hash : FrameHash
  deriving DecidableEq, Repr

/-- The `AV_NOPTS_VALUE` sentinel (`INT64_MIN`). -/
def AV_NOPTS_VALUE : Int := -(2 ^ 63)

/-- The per-track index (`VideoTrackIndex`): frame records plus the
duration of the last frame. -/
structure VideoTrackIndex where
  lastFrameDuration : Int
  frames : List FrameInfo
  deriving DecidableEq, Repr

/-- Errors surfaced by `BestVideoSource` construction (`VideoException`
throws in the constructor). -/
inductive VideoError where
  | indexBuildFailed
  | rffQuirk
  deriving DecidableEq, Repr

/-- `BestVideoSource::IndexTrack` (lines 826-869): the linear pass appends
one record per decoded frame and succeeds exactly when at least one frame
was produced (`return !TrackIndex.Frames.empty()`). -/
def indexTrack (decoded : List FrameInfo) : Bool :=
  !decoded.isEmpty

/-- The fresh-build path of the `BestVideoSource` constructor
(lines 786-794): when no cached index loads, `IndexTrack` must succeed or
construction throws the indexing failure; afterwards only
`TrackIndex.Frames[0].RepeatPict < 0` triggers the RFF-quirk throw. -/
def constructFreshIndex (decoded : List FrameInfo) :
    Except VideoError (List FrameInfo) :=
  match decoded with
  | [] => Except.error VideoError.indexBuildFailed
  | f :: rest =>
    if f.repeatPict < 0 then Except.error VideoError.rffQuirk
    else Except.ok (f :: rest)

/-! ## Frame cache (`BestVideoSource::Cache`, lines 718-771) -/

/-- A cache entry (`Cache::CacheBlock`): ordinal frame number, the byte
size summed over the frame buffers, and the retained frame payload. -/
structure CacheBlock (α : Type) where
  frameNumber : Int
  blockSize : Nat
  frame : α
  deriving DecidableEq, Repr

/-- `BestVideoSource::Cache`: an LRU list (front = most recently used)
plus the tracked total byte size and the byte budget. -/
structure FrameCache (α : Type) where
  data : List (CacheBlock α)
  size : Nat
  maxSize : Nat
  deriving DecidableEq, Repr

/-- The eviction loop of `Cache::ApplyMaxSize` (lines 728-733): pop the
least recently used block until the tracked size fits the budget.  The
source never runs the loop on an empty list (the tracked size is then 0),
so the `[]` case only keeps the model total. -/
def applyMaxSizeAux {α : Type} (m : Nat) (data : List (CacheBlock α)) (size : Nat) :
    List (CacheBlock α) × Nat :=
  if size ≤ m then (data, size)
  else
    match data with
    | [] => ([], size)
    | b :: rest =>
      applyMaxSizeAux m (b :: rest).dropLast (size - ((b :: rest).getLast (by simp)).blockSize)
  termination_by data.length
  decreasing_by simp [List.length_dropLast]

/-- `Cache::ApplyMaxSize` on the full cache state. -/
def FrameCache.applyMaxSize {α : Type} (c : FrameCache α) : FrameCache α :=
  let p := applyMaxSizeAux c.maxSize c.data c.size
  ⟨p.1, p.2, c.maxSize⟩

/-- `Cache::Clear` (lines 735-738). -/
def FrameCache.clear {α : Type} (c : FrameCache α) : FrameCache α :=
  ⟨[], 0, c.maxSize⟩

/-- `Cache::SetMaxSize` (lines 740-743): store the new budget and evict. -/
def FrameCache.setMaxSize {α : Type} (c : FrameCache α) (bytes : Nat) : FrameCache α :=
  FrameCache.applyMaxSize ⟨c.data, c.size, bytes⟩

/-- `Cache::CacheFrame` (lines 745-760): drop the old copy of the same
frame number if present, push the new block to the front, and evict down
to the budget. -/
def FrameCache.cacheFrame {α : Type} (c : FrameCache α) (n : Int) (sz : Nat) (fr : α) :
    FrameCache α :=
  let found := c.data.find? (fun b => b.frameNumber == n)
  let data1 := match found with
    | some _ => c.data.eraseP (fun b => b.frameNumber == n)
    | none => c.data
  let size1 := match found with
    | some b => c.size - b.blockSize
    | none => c.size
  FrameCache.applyMaxSize ⟨⟨n, sz, fr⟩ :: data1, size1 + sz, c.maxSize⟩

/-- `Cache::GetFrame` (lines 762-771): return the payload of the first
block with the requested frame number and splice it to the front; `none`
on a miss. -/
def FrameCache.lookup {α : Type} (c : FrameCache α) (n : Int) :
    Option α × FrameCache α :=
  match c.data.find? (fun b => b.frameNumber == n) with
  | none => (none, c)
  | some b =>
    (some b.frame, ⟨b :: c.data.eraseP (fun bl => bl.frameNumber == n), c.size, c.maxSize⟩)

/-- Total byte size of the blocks actually held. -/
def blockSizeSum {α : Type} (data : List (CacheBlock α)) : Nat :=
  (data.map (fun b => b.blockSize)).sum

/-- The tracked `Size` field agrees with the held blocks. -/
def FrameCache.SizeAccurate {α : Type} (c : FrameCache α) : Prop :=
  c.size = blockSizeSum c.data

/-- No two cache entries share a frame number. -/
def FrameCache.NoDupFrames {α : Type} (c : FrameCache α) : Prop :=
  (c.data.map (fun b => b.frameNumber)).Nodup

/-- The tracked size fits the configured budget. -/
def FrameCache.WithinBudget {α : Type} (c : FrameCache α) : Prop :=
  c.size ≤ c.maxSize

instance {α : Type} (c : FrameCache α) : Decidable c.SizeAccurate := by
  unfold FrameCache.SizeAccurate; infer_instance

instance {α : Type} (c : FrameCache α) : Decidable c.NoDupFrames := by
  unfold FrameCache.NoDupFrames; infer_instance

instance {α : Type} (c : FrameCache α) : Decidable c.WithinBudget := by
  unfold FrameCache.WithinBudget; infer_instance

lemma blockSizeSum_dropLast {α : Type} (l : List (CacheBlock α)) (h : l ≠ []) :
    blockSizeSum l = blockSizeSum l.dropLast + (l.getLast h).blockSize := by
  conv_lhs => rw [← List.dropLast_append_getLast h]
  simp [blockSizeSum]

lemma applyMaxSizeAux_spec {α : Type} (m : Nat) (data : List (CacheBlock α)) (size : Nat) :
    size = blockSizeSum data →
    (applyMaxSizeAux m data size).2 = blockSizeSum (applyMaxSizeAux m data size).1 ∧
      (applyMaxSizeAux m data size).2 ≤ m ∧
      (applyMaxSizeAux m data size).1 <+: data := by
  induction data, size using applyMaxSizeAux.induct m with
  | case1 data size hle =>
    intro hacc
    rw [applyMaxSizeAux.eq_def, if_pos hle]
    exact ⟨hacc, hle, List.prefix_refl data⟩
  | case2 size hle =>
    intro hacc
    rw [applyMaxSizeAux.eq_def, if_neg hle]
    simp only [blockSizeSum, List.map_nil, List.sum_nil] at hacc
    omega
  | case3 size hle b rest ih =>
    intro hacc
    rw [applyMaxSizeAux.eq_def, if_neg hle]
    have hne : (b :: rest) ≠ ([] : List (CacheBlock α)) := by simp
    have hsum := blockSizeSum_dropLast (b :: rest) hne
    have hacc2 : size - ((b :: rest).getLast hne).blockSize =
        blockSizeSum (b :: rest).dropLast := by omega
    obtain ⟨h1, h2, h3⟩ := ih hacc2
    refine ⟨h1, h2, h3.trans ⟨[(b :: rest).getLast hne], ?_⟩⟩
    exact List.dropLast_append_getLast hne

/-- If `find?` locates a block, the list is a permutation of that block
consed onto the list with its first match erased. -/
lemma find?_cons_eraseP_perm {α : Type} (p : CacheBlock α → Bool)
    (l : List (CacheBlock α)) (b : CacheBlock α) (h : l.find? p = some b) :
    l.Perm (b :: l.eraseP p) := by
  induction l with
  | nil => simp at h
  | cons x xs ih =>
    by_cases hp : p x
    · rw [List.find?_cons_of_pos _ hp] at h
      cases h
      rw [List.eraseP_cons_of_pos hp]
    · rw [List.find?_cons_of_neg _ hp] at h
      rw [List.eraseP_cons_of_neg hp]
      exact ((ih h).cons x).trans (List.Perm.swap b x (xs.eraseP p))

/-- Invariant bundle for the cache invariant claim. -/
def FrameCache.Inv {α : Type} (c : FrameCache α) : Prop :=
  c.SizeAccurate ∧ c.NoDupFrames ∧ c.WithinBudget

lemma applyMaxSize_inv {α : Type} (c : FrameCache α)
    (hacc : c.SizeAccurate) (hnd : c.NoDupFrames) :
    c.applyMaxSize.Inv := by
  obtain ⟨h1, h2, h3⟩ := applyMaxSizeAux_spec c.maxSize c.data c.size hacc
  simp only [FrameCache.NoDupFrames] at hnd
  refine ⟨h1, ?_, h2⟩
  simp only [FrameCache.applyMaxSize, FrameCache.NoDupFrames]
  exact ((h3.sublist.map (fun b => b.frameNumber)).nodup hnd)

lemma blockSizeSum_cons {α : Type} (b : CacheBlock α) (l : List (CacheBlock α)) :
    blockSizeSum (b :: l) = b.blockSize + blockSizeSum l := by
  simp [blockSizeSum]

lemma cacheFrame_inv {α : Type} (c : FrameCache α) (n : Int) (sz : Nat) (fr : α)
    (hacc : c.SizeAccurate) (hnd : c.NoDupFrames) :
    (c.cacheFrame n sz fr).Inv := by
  simp only [FrameCache.SizeAccurate] at hacc
  simp only [FrameCache.NoDupFrames] at hnd
  cases hf : c.data.find? (fun b => b.frameNumber == n) with
  | none =>
    simp only [FrameCache.cacheFrame, hf]
    apply applyMaxSize_inv
    · simp only [FrameCache.SizeAccurate, blockSizeSum_cons]
      omega
    · have hno : ∀ b ∈ c.data, b.frameNumber ≠ n := by
        intro b hb
        have := List.find?_eq_none.mp hf b hb
        simpa using this
      simp only [FrameCache.NoDupFrames, List.map_cons, List.nodup_cons]
      refine ⟨?_, hnd⟩
      intro hmem
      obtain ⟨b, hb, hbn⟩ := List.mem_map.mp hmem
      exact hno b hb hbn
  | some b =>
    have hperm := find?_cons_eraseP_perm (fun bl => bl.frameNumber == n) c.data b hf
    have hbn : b.frameNumber = n := by
      have := List.find?_some hf
      simpa using this
    have hpermmap := hperm.map (fun bl => bl.frameNumber)
    have hsum : blockSizeSum c.data =
        b.blockSize + blockSizeSum (c.data.eraseP (fun bl => bl.frameNumber == n)) := by
      have := (hperm.map (fun bl => bl.blockSize)).sum_eq
      simpa [blockSizeSum] using this
    simp only [FrameCache.cacheFrame, hf]
    apply applyMaxSize_inv
    · simp only [FrameCache.SizeAccurate, blockSizeSum_cons]
      omega
    · have hnd2 : ((b :: c.data.eraseP (fun bl => bl.frameNumber == n)).map
          (fun bl => bl.frameNumber)).Nodup := hpermmap.nodup_iff.mp hnd
      simp only [List.map_cons, List.nodup_cons, hbn] at hnd2
      simp only [FrameCache.NoDupFrames, List.map_cons, List.nodup_cons]
      exact hnd2

lemma lookup_inv {α : Type} (c : FrameCache α) (n : Int) (h : c.Inv) :
    ((c.lookup n).2).Inv := by
  obtain ⟨hacc, hnd, hwb⟩ := h
  simp only [FrameCache.SizeAccurate] at hacc
  simp only [FrameCache.NoDupFrames] at hnd
  cases hf : c.data.find? (fun b => b.frameNumber == n) with
  | none =>
    simp only [FrameCache.lookup, hf]
    exact ⟨hacc, hnd, hwb⟩
  | some b =>
    have hperm := find?_cons_eraseP_perm (fun bl => bl.frameNumber == n) c.data b hf
    simp only [FrameCache.lookup, hf]
    refine ⟨?_, ?_, hwb⟩
    · have := (hperm.map (fun bl => bl.blockSize)).sum_eq
      simp only [FrameCache.SizeAccurate]
      simpa [blockSizeSum, hacc] using this
    · simp only [FrameCache.NoDupFrames]
      exact ((hperm.map (fun bl => bl.frameNumber)).nodup_iff).mp hnd

lemma setMaxSize_inv {α : Type} (c : FrameCache α) (bytes : Nat)
    (hacc : c.SizeAccurate) (hnd : c.NoDupFrames) :
    (c.setMaxSize bytes).Inv := by
  exact applyMaxSize_inv ⟨c.data, c.size, bytes⟩ hacc hnd

lemma clear_inv {α : Type} (c : FrameCache α) : c.clear.Inv := by
  refine ⟨?_, ?_, ?_⟩ <;>
    simp [FrameCache.clear, FrameCache.SizeAccurate, FrameCache.NoDupFrames,
      FrameCache.WithinBudget, blockSizeSum]

instance {α : Type} (c : FrameCache α) : Decidable c.Inv := by
  unfold FrameCache.Inv; infer_instance

/-- C6: starting from any cache state that satisfies the invariants
(tracked size accurate and within the budget, no duplicate frame
numbers), every cache operation — insert (`CacheFrame`), lookup
(`GetFrame`), `SetMaxSize`, and `Clear` — re-establishes them: the total
byte size of the cached frames never exceeds the configured budget after
the operation completes, and no two entries share a frame number because
inserting an already-cached frame number first evicts the old copy. -/
theorem c6_cache_invariants {α : Type} (c : FrameCache α) (n m : Int)
    (sz bytes : Nat) (fr : α) (h : c.Inv) :
    (c.cacheFrame n sz fr).Inv ∧ ((c.lookup m).2).Inv ∧
      (c.setMaxSize bytes).Inv ∧ c.clear.Inv := by
  obtain ⟨hacc, hnd, hwb⟩ := h
  exact ⟨cacheFrame_inv c n sz fr hacc hnd, lookup_inv c m ⟨hacc, hnd, hwb⟩,
    setMaxSize_inv c bytes hacc hnd, clear_inv c⟩

/-- Witness for `c6_cache_invariants` at a concrete two-entry cache. -/
theorem c6_cache_invariants_witness :
    (⟨[⟨0, 3, 11⟩, ⟨1, 4, 22⟩], 7, 10⟩ : FrameCache Nat).Inv ∧
      ((⟨[⟨0, 3, 11⟩, ⟨1, 4, 22⟩], 7, 10⟩ : FrameCache Nat).cacheFrame 1 5 33).Inv ∧
      (((⟨[⟨0, 3, 11⟩, ⟨1, 4, 22⟩], 7, 10⟩ : FrameCache Nat).lookup 0).2).Inv ∧
      ((⟨[⟨0, 3, 11⟩, ⟨1, 4, 22⟩], 7, 10⟩ : FrameCache Nat).setMaxSize 4).Inv ∧
      (⟨[⟨0, 3, 11⟩, ⟨1, 4, 22⟩], 7, 10⟩ : FrameCache Nat).clear.Inv :=
  ⟨by decide, c6_cache_invariants ⟨[⟨0, 3, 11⟩, ⟨1, 4, 22⟩], 7, 10⟩ 1 0 5 4 33 (by decide)⟩

/-! ## C1: index build success condition -/

/-- C1 counterexample: a two-frame index whose second record has
`repeat_pict = -1` is accepted by construction (the code checks
`Frames[0].RepeatPict` only), contradicting the claim that the build
fails whenever any frame record has `repeat_pict < 0`. -/
theorem c1_index_build_counterexample :
    (constructFreshIndex
        [⟨0, 0, true, false, [1]⟩, ⟨1, -1, false, false, [2]⟩]).isOk = true ∧
      ¬ (∀ f ∈ [(⟨0, 0, true, false, [1]⟩ : FrameInfo), ⟨1, -1, false, false, [2]⟩],
          0 ≤ f.repeatPict) := by
  constructor
  · decide
  · decide

/-- C1 (amended): a fresh index build succeeds — construction returns the
index instead of an error — if and only if the linear pass decoded at
least one frame and the FIRST frame record has `repeat_pict ≥ 0`; in all
other cases construction surfaces an error and no engine handle exists. -/
theorem c1_index_build_amended (decoded : List FrameInfo) :
    (∃ idx, constructFreshIndex decoded = Except.ok idx) ↔
      decoded ≠ [] ∧ ∀ f ∈ decoded.take 1, 0 ≤ f.repeatPict := by
  cases decoded with
  | nil => simp [constructFreshIndex]
  | cons f rest =>
    by_cases h : f.repeatPict < 0
    · simp only [constructFreshIndex, if_pos h]
      constructor
      · rintro ⟨idx, hidx⟩
        cases hidx
      · rintro ⟨-, hall⟩
        have := hall f (by simp)
        omega
    · simp only [constructFreshIndex, if_neg h]
      constructor
      · intro _
        refine ⟨by simp, ?_⟩
        intro g hg
        simp only [List.take_succ_cons, List.take_zero, List.mem_singleton] at hg
        subst hg
        omega
      · intro _
        exact ⟨f :: rest, rfl⟩

/-! ## C3: `GetFrame` bounds check and cache fast path -/

/-- Result of one `GetFrame` call in the model: the returned frame, the
cache afterwards, and whether the request fell through to a decode path
(`GetFrameInternal` / `GetFrameLinearInternal`). -/
structure GetFrameResult (α : Type) where
  frame : Option α
  cache : FrameCache α
  usedDecoder : Bool
  deriving DecidableEq, Repr

/-- `BestVideoSource::GetFrame` (lines 885-894): reject out-of-range
requests, then serve from the frame cache; only on a cache miss dispatch
to the decode paths, which are abstracted here as the function
`internal` from the target frame number and the linear flag to a result
frame and a new cache state. -/
def getFrame {α : Type} (numFrames : Int) (c : FrameCache α)
    (internal : Int → Bool → Option α × FrameCache α) (N : Int) (lin : Bool) :
    GetFrameResult α :=
  if N < 0 ∨ N ≥ numFrames then ⟨none, c, false⟩
  else
    match c.lookup N with
    | (some f, c2) => ⟨some f, c2, false⟩
    | (none, _) =>
      let p := internal N lin
      ⟨p.1, p.2, true⟩

/-- C3: for every N with N < 0 or N ≥ num_frames, `GetFrame(N, linear)`
returns null for any value of the linear flag (and leaves the cache
untouched), and for every in-range N whose frame number is present in
the frame cache it returns that cached frame without dispatching to any
decoder. -/
theorem c3_getFrame_bounds_and_cache {α : Type} (numFrames : Int)
    (c : FrameCache α) (internal : Int → Bool → Option α × FrameCache α)
    (N : Int) (lin : Bool) (b : CacheBlock α) :
    ((N < 0 ∨ numFrames ≤ N) →
        getFrame numFrames c internal N lin = ⟨none, c, false⟩) ∧
      ((0 ≤ N ∧ N < numFrames ∧
          c.data.find? (fun bl => bl.frameNumber == N) = some b) →
        (getFrame numFrames c internal N lin).frame = some b.frame ∧
          (getFrame numFrames c internal N lin).usedDecoder = false) := by
  constructor
  · intro h
    have : N < 0 ∨ N ≥ numFrames := by omega
    simp [getFrame, this]
  · rintro ⟨h1, h2, hfind⟩
    have hrange : ¬ (N < 0 ∨ N ≥ numFrames) := by omega
    simp [getFrame, if_neg hrange, FrameCache.lookup, hfind]

/-- Witness for `c3_getFrame_bounds_and_cache`: frame 2 is cached, so an
in-range request returns it with no decoder use; the out-of-range part is
exercised at N = -1 via the same theorem. -/
theorem c3_getFrame_witness :
    (((-1 : Int) < 0 ∨ (5 : Int) ≤ -1) ∧
      getFrame 5 (⟨[⟨2, 4, 77⟩], 4, 10⟩ : FrameCache Nat)
          (fun _ _ => (none, ⟨[], 0, 0⟩)) (-1) true =
        ⟨none, ⟨[⟨2, 4, 77⟩], 4, 10⟩, false⟩) ∧
      ((0 ≤ (2 : Int) ∧ (2 : Int) < 5 ∧
          (⟨[⟨2, 4, 77⟩], 4, 10⟩ : FrameCache Nat).data.find?
              (fun bl => bl.frameNumber == 2) = some ⟨2, 4, 77⟩) ∧
        (getFrame 5 (⟨[⟨2, 4, 77⟩], 4, 10⟩ : FrameCache Nat)
              (fun _ _ => (none, ⟨[], 0, 0⟩)) 2 false).frame = some 77 ∧
          (getFrame 5 (⟨[⟨2, 4, 77⟩], 4, 10⟩ : FrameCache Nat)
              (fun _ _ => (none, ⟨[], 0, 0⟩)) 2 false).usedDecoder = false) :=
  ⟨⟨by decide,
      (c3_getFrame_bounds_and_cache 5 ⟨[⟨2, 4, 77⟩], 4, 10⟩
          (fun _ _ => (none, ⟨[], 0, 0⟩)) (-1) true ⟨2, 4, 77⟩).1 (by decide)⟩,
    ⟨by decide,
      (c3_getFrame_bounds_and_cache 5 ⟨[⟨2, 4, 77⟩], 4, 10⟩
          (fun _ _ => (none, ⟨[], 0, 0⟩)) 2 false ⟨2, 4, 77⟩).2 (by decide)⟩⟩

/-! ## RFF remapper (`BestVideoSource::InitializeRFF`, lines 1201-1238,
and the `NumRFFFrames` computation of the constructor, lines 799-804) -/

/-- `NumFields`: the constructor sums `RepeatPict + 2` over all frames
(lines 799-802). -/
def numFields (frames : List FrameInfo) : Int :=
  (frames.map (fun f => f.repeatPict + 2)).sum

/-- `VP.NumRFFFrames = (NumFields + 1) / 2` with C++ `int64_t` division
(line 804). -/
def numRFFFrames (frames : List FrameInfo) : Int :=
  Int.tdiv (numFields frames + 1) 2

/-- The mutable state of `InitializeRFF`: the `RFFFields` table split
into its `.first` (top source) and `.second` (bottom source) columns —
modelled as total maps so that the out-of-bounds writes the C++ vector
would suffer become visible instead of undefined — plus the two field
cursors `DestFieldTop` and `DestFieldBottom`. -/
structure RFFState where
  top : Int → Int
  bottom : Int → Int
  topCursor : Int
  bottomCursor : Int

/-- `RFFFields.resize(NumRFFFrames)` value-initializes every pair to
`(0, 0)`; both cursors start at 0. -/
def initRFFState : RFFState :=
  ⟨fun _ => 0, fun _ => 0, 0, 0⟩

/-- The inner loop of `InitializeRFF` (lines 1213-1222): emit `k` fields
for source frame `N`, alternating parity starting from `destTop`. -/
def emitFields (N : Int) : Nat → Bool → RFFState → RFFState
  | 0, _, s => s
  | k + 1, destTop, s =>
    if destTop then
      emitFields N k false
        ⟨Function.update s.top s.topCursor N, s.bottom, s.topCursor + 1, s.bottomCursor⟩
    else
      emitFields N k true
        ⟨s.top, Function.update s.bottom s.bottomCursor N, s.topCursor, s.bottomCursor + 1⟩

/-- The outer walk of `InitializeRFF` (lines 1208-1224): one pass over
the frame records, frame counter `N` starting at 0; `RepeatFields =
RepeatPict + 2` is an `int`, so a negative value yields zero loop
iterations. -/
def rffWalk : List FrameInfo → Int → RFFState → RFFState
  | [], _, s => s
  | f :: rest, N, s => rffWalk rest (N + 1) (emitFields N (f.repeatPict + 2).toNat f.tff s)

/-- `InitializeRFF` (lines 1201-1238): the walk followed by the final
parity fix-up that duplicates the last field of the longer side. -/
def initializeRFF (frames : List FrameInfo) : RFFState :=
  let s := rffWalk frames 0 initRFFState
  if s.topCursor > s.bottomCursor then
    ⟨s.top, Function.update s.bottom s.bottomCursor (s.bottom (s.bottomCursor - 1)),
      s.topCursor, s.bottomCursor + 1⟩
  else if s.topCursor < s.bottomCursor then
    ⟨Function.update s.top s.topCursor (s.top (s.topCursor - 1)), s.bottom,
      s.topCursor + 1, s.bottomCursor⟩
  else s

lemma emitFields_cursorSum (N : Int) (k : Nat) (destTop : Bool) (s : RFFState) :
    (emitFields N k destTop s).topCursor + (emitFields N k destTop s).bottomCursor =
      s.topCursor + s.bottomCursor + k := by
  induction k generalizing destTop s with
  | zero => simp [emitFields]
  | succ k ih =>
    cases destTop <;> simp [emitFields, ih] <;> ring

lemma emitFields_cursorMono (N : Int) (k : Nat) (destTop : Bool) (s : RFFState) :
    s.topCursor ≤ (emitFields N k destTop s).topCursor ∧
      s.bottomCursor ≤ (emitFields N k destTop s).bottomCursor := by
  induction k generalizing destTop s with
  | zero => simp [emitFields]
  | succ k ih =>
    cases destTop
    · have := ih true ⟨s.top, Function.update s.bottom s.bottomCursor N,
        s.topCursor, s.bottomCursor + 1⟩
      simp [emitFields] at *
      constructor <;> omega
    · have := ih false ⟨Function.update s.top s.topCursor N, s.bottom,
        s.topCursor + 1, s.bottomCursor⟩
      simp [emitFields] at *
      constructor <;> omega

lemma rffWalk_cursorSum (frames : List FrameInfo) (N : Int) (s : RFFState)
    (hrep : ∀ f ∈ frames, 0 ≤ f.repeatPict) :
    (rffWalk frames N s).topCursor + (rffWalk frames N s).bottomCursor =
      s.topCursor + s.bottomCursor + numFields frames := by
  induction frames generalizing N s with
  | nil => simp [rffWalk, numFields]
  | cons f rest ih =>
    have hf : 0 ≤ f.repeatPict := hrep f (by simp)
    have hcast : ((f.repeatPict + 2).toNat : Int) = f.repeatPict + 2 := by omega
    have hrest : ∀ g ∈ rest, 0 ≤ g.repeatPict := fun g hg => hrep g (by simp [hg])
    have hsum := emitFields_cursorSum N (f.repeatPict + 2).toNat f.tff s
    simp only [rffWalk, numFields, List.map_cons, List.sum_cons] at *
    rw [ih _ _ hrest, hsum, hcast]
    ring

lemma rffWalk_cursorNonneg (frames : List FrameInfo) (N : Int) (s : RFFState)
    (h1 : 0 ≤ s.topCursor) (h2 : 0 ≤ s.bottomCursor) :
    0 ≤ (rffWalk frames N s).topCursor ∧ 0 ≤ (rffWalk frames N s).bottomCursor := by
  induction frames generalizing N s with
  | nil => exact ⟨h1, h2⟩
  | cons f rest ih =>
    have hm := emitFields_cursorMono N (f.repeatPict + 2).toNat f.tff s
    exact ih _ _ (by omega) (by omega)

/-- C4 counterexample: on the index `[{repeat_pict = 1, tff}, {repeat_pict
= 1, tff}]` (all `repeat_pict ≥ 0`) the field walk ends with the cursors
at 4 and 2; after the fix-up they are 4 and 3 while `num_rff_frames = 3`,
so the cursors do NOT both end equal to `num_rff_frames` (in the C++ this
input also overruns the `RFFFields` vector and trips the walk asserts). -/
theorem c4_rff_counterexample :
    numRFFFrames [⟨0, 1, false, true, [1]⟩, ⟨1, 1, false, true, [2]⟩] = 3 ∧
      (initializeRFF [⟨0, 1, false, true, [1]⟩, ⟨1, 1, false, true, [2]⟩]).topCursor = 4 ∧
      (initializeRFF [⟨0, 1, false, true, [1]⟩, ⟨1, 1, false, true, [2]⟩]).bottomCursor = 3 := by
  refine ⟨by decide, by decide, by decide⟩

/-- C4 (amended): `num_rff_frames` is `(Σ (repeat_pict + 2) + 1) / 2`
with truncating division; when every `repeat_pict` is nonnegative the
field sum satisfies `2 × num_rff_frames − Σ (repeat_pict + 2) ∈ {0, 1}`
(at most one padding field); and — additionally assuming the field walk
ends with its two cursors at most one apart, which is the interleaving
the code asserts — both cursors end equal to `num_rff_frames` after the
fix-up. -/
theorem c4_rff_field_conservation (frames : List FrameInfo)
    (hrep : ∀ f ∈ frames, 0 ≤ f.repeatPict)
    (hbal : ((rffWalk frames 0 initRFFState).topCursor -
        (rffWalk frames 0 initRFFState).bottomCursor).natAbs ≤ 1) :
    numRFFFrames frames = Int.tdiv (numFields frames + 1) 2 ∧
      (2 * numRFFFrames frames - numFields frames = 0 ∨
        2 * numRFFFrames frames - numFields frames = 1) ∧
      (initializeRFF frames).topCursor = numRFFFrames frames ∧
      (initializeRFF frames).bottomCursor = numRFFFrames frames := by
  have hsum := rffWalk_cursorSum frames 0 initRFFState hrep
  have hnn := rffWalk_cursorNonneg frames 0 initRFFState (le_refl 0) (le_refl 0)
  have hz1 : initRFFState.topCursor = 0 := rfl
  have hz2 : initRFFState.bottomCursor = 0 := rfl
  rw [hz1, hz2] at hsum
  set s := rffWalk frames 0 initRFFState with hs
  have hfields : s.topCursor + s.bottomCursor = numFields frames := by omega
  have hnf : 0 ≤ numFields frames := by omega
  have htdiv : numRFFFrames frames = (numFields frames + 1) / 2 := by
    simp only [numRFFFrames]
    rw [Int.tdiv_eq_ediv (by omega) (by omega)]
  refine ⟨rfl, by omega, ?_, ?_⟩ <;>
  · simp only [initializeRFF, ← hs]
    split_ifs with h1 h2 <;> (try dsimp only) <;> omega

/-- Witness for `c4_rff_field_conservation` on a 3:2-pulldown-style index
`[{repeat_pict = 2, tff}, {repeat_pict = 0, tff}]`. -/
theorem c4_rff_field_conservation_witness :
    ((∀ f ∈ [(⟨0, 2, false, true, [1]⟩ : FrameInfo), ⟨1, 0, false, true, [2]⟩],
        0 ≤ f.repeatPict) ∧
      ((rffWalk [⟨0, 2, false, true, [1]⟩, ⟨1, 0, false, true, [2]⟩] 0
            initRFFState).topCursor -
          (rffWalk [⟨0, 2, false, true, [1]⟩, ⟨1, 0, false, true, [2]⟩] 0
            initRFFState).bottomCursor).natAbs ≤ 1) ∧
      (numRFFFrames [⟨0, 2, false, true, [1]⟩, ⟨1, 0, false, true, [2]⟩] =
          Int.tdiv (numFields [⟨0, 2, false, true, [1]⟩, ⟨1, 0, false, true, [2]⟩] + 1) 2 ∧
        (2 * numRFFFrames [⟨0, 2, false, true, [1]⟩, ⟨1, 0, false, true, [2]⟩] -
              numFields [⟨0, 2, false, true, [1]⟩, ⟨1, 0, false, true, [2]⟩] = 0 ∨
          2 * numRFFFrames [⟨0, 2, false, true, [1]⟩, ⟨1, 0, false, true, [2]⟩] -
              numFields [⟨0, 2, false, true, [1]⟩, ⟨1, 0, false, true, [2]⟩] = 1) ∧
        (initializeRFF [⟨0, 2, false, true, [1]⟩, ⟨1, 0, false, true, [2]⟩]).topCursor =
          numRFFFrames [⟨0, 2, false, true, [1]⟩, ⟨1, 0, false, true, [2]⟩] ∧
        (initializeRFF [⟨0, 2, false, true, [1]⟩, ⟨1, 0, false, true, [2]⟩]).bottomCursor =
          numRFFFrames [⟨0, 2, false, true, [1]⟩, ⟨1, 0, false, true, [2]⟩]) :=
  ⟨⟨by decide, by decide⟩,
    c4_rff_field_conservation [⟨0, 2, false, true, [1]⟩, ⟨1, 0, false, true, [2]⟩]
      (by decide) (by decide)⟩

/-! ## RFF frame synthesis (`BestVideoFrame::MergeField`, lines 534-565,
and `BestVideoSource::GetFrameWithRFF`, lines 1240-1267) -/

/-- A decoded frame as `MergeField` sees it: the identifying
format/width/height triple and, per plane, the list of visible pixel
rows (each row the visible bytes, padding excluded). -/
structure VFrame where
  format : Int
  width : Int
  height : Int
  planes : List (List (List Nat))
  deriving DecidableEq, Repr

/-- The per-plane line loop of `MergeField` (lines 543-563): starting at
absolute row `h`, replace every row whose index has parity `par` with the
row of the field source, walking both frames in lockstep. -/
def mergeRows (par : Nat) : Nat → List (List Nat) → List (List Nat) → List (List Nat)
  | _, [], _ => []
  | _, dst, [] => dst
  | h, d :: ds, s :: ss =>
    (if h % 2 = par then s else d) :: mergeRows par (h + 1) ds ss

/-- `BestVideoFrame::MergeField(Top, AFieldSrc)` (lines 534-565): fails
when format, width or height differ (`"Merged frames must have same
format"`); otherwise overwrites every second row of `dst`, starting at
row 0 when `Top` and at row 1 otherwise, with the rows of `src`. -/
def mergeField (top : Bool) (dst src : VFrame) : Except Unit VFrame :=
  if dst.format ≠ src.format ∨ dst.width ≠ src.width ∨ dst.height ≠ src.height then
    Except.error ()
  else
    Except.ok
      ⟨dst.format, dst.width, dst.height,
        (dst.planes.zip src.planes).map
          (fun pq => mergeRows (if top then 0 else 1) 0 pq.1 pq.2)⟩

/-- Outcome of a `GetFrameWithRFF` request. -/
inductive MergeOutcome where
  | frame (f : VFrame)
  | nullFrame
  | formatMismatch
  deriving DecidableEq, Repr

/-- Lift the nullable `GetFrame` result. -/
def toOutcome : Option VFrame → MergeOutcome
  | none => MergeOutcome.nullFrame
  | some f => MergeOutcome.frame f

/-- `BestVideoSource::GetFrameWithRFF` (lines 1240-1267) for an engine
whose RFF table is initialized; `gf` abstracts `GetFrame`.  When RFF is
unused the call passes through; with equal field sources it returns the
single source frame; otherwise it merges the other-parity lines into the
frame with the LOWER source index (`MergeField(false, bottom)` on the top
frame when `first < second`, `MergeField(true, top)` on the bottom frame
otherwise). -/
def getFrameWithRFF (rffUnused : Bool) (fields : List (Int × Int))
    (gf : Int → Option VFrame) (M : Nat) : MergeOutcome :=
  if rffUnused then toOutcome (gf M)
  else
    let fd := fields.getD M (0, 0)
    if fd.1 = fd.2 then toOutcome (gf fd.1)
    else if fd.1 < fd.2 then
      match gf fd.1, gf fd.2 with
      | some top, some bottom =>
        match mergeField false top bottom with
        | Except.ok f => MergeOutcome.frame f
        | Except.error _ => MergeOutcome.formatMismatch
      | _, _ => MergeOutcome.nullFrame
    else
      match gf fd.2, gf fd.1 with
      | some bottom, some top =>
        match mergeField true bottom top with
        | Except.ok f => MergeOutcome.frame f
        | Except.error _ => MergeOutcome.formatMismatch
      | _, _ => MergeOutcome.nullFrame

lemma mergeRows_getD (par : Nat) (h i : Nat) (dst src : List (List Nat))
    (hd : i < dst.length) (hs : i < src.length) :
    (mergeRows par h dst src).getD i [] =
      if (h + i) % 2 = par then src.getD i [] else dst.getD i [] := by
  induction dst generalizing src h i with
  | nil => simp at hd
  | cons d ds ih =>
    cases src with
    | nil => simp at hs
    | cons s ss =>
      cases i with
      | zero => simp [mergeRows]
      | succ i =>
        simp only [mergeRows, List.getD_cons_succ]
        rw [ih (h + 1) i ss (by simpa using hd) (by simpa using hs)]
        have harith : h + 1 + i = h + (i + 1) := by ring
        rw [harith]

lemma mergedPlanes_getD (par : Nat) (A B : List (List (List Nat))) (p : Nat)
    (hpa : p < A.length) (hpb : p < B.length) :
    (((A.zip B).map (fun pq => mergeRows par 0 pq.1 pq.2)).getD p []) =
      mergeRows par 0 (A.getD p []) (B.getD p []) := by
  have hlen : p < (A.zip B).length := by
    rw [List.length_zip]
    omega
  rw [List.getD_eq_getElem _ _ (by simpa using hlen), List.getElem_map,
    List.getElem_zip, List.getD_eq_getElem _ _ hpa, List.getD_eq_getElem _ _ hpb]

lemma getFrameWithRFF_cases (fields : List (Int × Int)) (gf : Int → Option VFrame)
    (M : Nat) (a b : Int) (hfd : fields.getD M (0, 0) = (a, b)) :
    getFrameWithRFF false fields gf M =
      (if a = b then toOutcome (gf a)
        else if a < b then
          match gf a, gf b with
          | some top, some bottom =>
            (match mergeField false top bottom with
              | Except.ok f => MergeOutcome.frame f
              | Except.error _ => MergeOutcome.formatMismatch)
          | _, _ => MergeOutcome.nullFrame
        else
          match gf b, gf a with
          | some bottom, some top =>
            (match mergeField true bottom top with
              | Except.ok f => MergeOutcome.frame f
              | Except.error _ => MergeOutcome.formatMismatch)
          | _, _ => MergeOutcome.nullFrame) := by
  rw [getFrameWithRFF]
  rw [if_neg (by simp)]
  rw [hfd]

/-- C5: for an RFF frame `M` whose top and bottom source indices differ,
`GetFrameWithRFF(M)` merges on the frame with the lower source index,
overwriting its other-parity lines — every second line starting at row 1
when merging into the top-field frame (`first < second`), row 0 when
merging into the bottom-field frame — with the corresponding lines of the
other frame; a format/width/height mismatch fails with FormatMismatch;
equal indices return `GetFrame` of that index unchanged. -/
theorem c5_rff_merge (fields : List (Int × Int)) (gf : Int → Option VFrame)
    (M : Nat) (a b : Int) (fa fb : VFrame)
    (hfd : fields.getD M (0, 0) = (a, b))
    (hga : gf a = some fa) (hgb : gf b = some fb) :
    (a = b → getFrameWithRFF false fields gf M = toOutcome (gf a)) ∧
      (a ≠ b →
        (fa.format ≠ fb.format ∨ fa.width ≠ fb.width ∨ fa.height ≠ fb.height) →
        getFrameWithRFF false fields gf M = MergeOutcome.formatMismatch) ∧
      (a < b → fa.format = fb.format → fa.width = fb.width → fa.height = fb.height →
        ∃ f, getFrameWithRFF false fields gf M = MergeOutcome.frame f ∧
          f.format = fa.format ∧ f.width = fa.width ∧ f.height = fa.height ∧
          ∀ p i, p < fa.planes.length → p < fb.planes.length →
            i < (fa.planes.getD p []).length → i < (fb.planes.getD p []).length →
            (f.planes.getD p []).getD i [] =
              (if i % 2 = 1 then (fb.planes.getD p []).getD i []
                else (fa.planes.getD p []).getD i [])) ∧
      (b < a → fa.format = fb.format → fa.width = fb.width → fa.height = fb.height →
        ∃ f, getFrameWithRFF false fields gf M = MergeOutcome.frame f ∧
          f.format = fb.format ∧ f.width = fb.width ∧ f.height = fb.height ∧
          ∀ p i, p < fa.planes.length → p < fb.planes.length →
            i < (fa.planes.getD p []).length → i < (fb.planes.getD p []).length →
            (f.planes.getD p []).getD i [] =
              (if i % 2 = 0 then (fa.planes.getD p []).getD i []
                else (fb.planes.getD p []).getD i [])) := by
  rw [getFrameWithRFF_cases fields gf M a b hfd]
  refine ⟨?_, ?_, ?_, ?_⟩
  · intro hab
    rw [if_pos hab]
  · intro hne hmm
    rw [if_neg hne]
    by_cases hlt : a < b
    · rw [if_pos hlt, hga, hgb]
      dsimp only
      have hmf : mergeField false fa fb = Except.error () := by
        rw [mergeField, if_pos hmm]
      rw [hmf]
    · rw [if_neg hlt, hga, hgb]
      have hmm2 : fb.format ≠ fa.format ∨ fb.width ≠ fa.width ∨ fb.height ≠ fa.height := by
        tauto
      dsimp only
      have hmf : mergeField true fb fa = Except.error () := by
        rw [mergeField, if_pos hmm2]
      rw [hmf]
  · intro hlt hf hw hh
    have hne : ¬ a = b := by omega
    have hok : ¬ (fa.format ≠ fb.format ∨ fa.width ≠ fb.width ∨ fa.height ≠ fb.height) := by
      tauto
    rw [if_neg hne, if_pos hlt, hga, hgb]
    have hmf : mergeField false fa fb = Except.ok ⟨fa.format, fa.width, fa.height,
        (fa.planes.zip fb.planes).map (fun pq => mergeRows 1 0 pq.1 pq.2)⟩ := by
      rw [mergeField, if_neg hok]
      rfl
    dsimp only
    rw [hmf]
    refine ⟨_, rfl, rfl, rfl, rfl, ?_⟩
    intro p i hpa hpb hia hib
    simp only []
    rw [mergedPlanes_getD 1 fa.planes fb.planes p hpa hpb,
      mergeRows_getD 1 0 i _ _ hia hib]
    simp
  · intro hgt hf hw hh
    have hne : ¬ a = b := by omega
    have hlt : ¬ a < b := by omega
    have hok : ¬ (fb.format ≠ fa.format ∨ fb.width ≠ fa.width ∨ fb.height ≠ fa.height) := by
      tauto
    rw [if_neg hne, if_neg hlt, hga, hgb]
    have hmf : mergeField true fb fa = Except.ok ⟨fb.format, fb.width, fb.height,
        (fb.planes.zip fa.planes).map (fun pq => mergeRows 0 0 pq.1 pq.2)⟩ := by
      rw [mergeField, if_neg hok]
      rfl
    dsimp only
    rw [hmf]
    refine ⟨_, rfl, rfl, rfl, rfl, ?_⟩
    intro p i hpa hpb hia hib
    simp only []
    rw [mergedPlanes_getD 0 fb.planes fa.planes p hpb hpa,
      mergeRows_getD 0 0 i _ _ hib hia]
    simp

/-- Witness for `c5_rff_merge`: a one-plane 2x2 pair with field sources
(0, 1); the merged frame keeps row 0 of the top frame and takes row 1
from the bottom frame. -/
theorem c5_rff_merge_witness :
    (([((0 : Int), (1 : Int))].getD 0 (0, 0) = ((0 : Int), (1 : Int))) ∧
      ((fun n => if n = (0 : Int) then some (⟨7, 2, 2, [[[1, 1], [2, 2]]]⟩ : VFrame)
          else if n = 1 then some ⟨7, 2, 2, [[[5, 5], [6, 6]]]⟩ else none) 0 =
        some (⟨7, 2, 2, [[[1, 1], [2, 2]]]⟩ : VFrame)) ∧
      ((fun n => if n = (0 : Int) then some (⟨7, 2, 2, [[[1, 1], [2, 2]]]⟩ : VFrame)
          else if n = 1 then some ⟨7, 2, 2, [[[5, 5], [6, 6]]]⟩ else none) 1 =
        some (⟨7, 2, 2, [[[5, 5], [6, 6]]]⟩ : VFrame)) ∧
      (0 : Int) < 1) ∧
      (∃ f, getFrameWithRFF false [(0, 1)]
            (fun n => if n = (0 : Int) then some (⟨7, 2, 2, [[[1, 1], [2, 2]]]⟩ : VFrame)
              else if n = 1 then some ⟨7, 2, 2, [[[5, 5], [6, 6]]]⟩ else none) 0 =
          MergeOutcome.frame f ∧
        f.format = 7 ∧ f.width = 2 ∧ f.height = 2 ∧
        ∀ p i, p < 1 → p < 1 →
          i < ((⟨7, 2, 2, [[[1, 1], [2, 2]]]⟩ : VFrame).planes.getD p []).length →
          i < ((⟨7, 2, 2, [[[5, 5], [6, 6]]]⟩ : VFrame).planes.getD p []).length →
          (f.planes.getD p []).getD i [] =
            (if i % 2 = 1
              then ((⟨7, 2, 2, [[[5, 5], [6, 6]]]⟩ : VFrame).planes.getD p []).getD i []
              else ((⟨7, 2, 2, [[[1, 1], [2, 2]]]⟩ : VFrame).planes.getD p []).getD i [])) :=
  ⟨⟨by decide, by decide, by decide, by decide⟩,
    (c5_rff_merge [(0, 1)]
        (fun n => if n = (0 : Int) then some (⟨7, 2, 2, [[[1, 1], [2, 2]]]⟩ : VFrame)
          else if n = 1 then some ⟨7, 2, 2, [[[5, 5], [6, 6]]]⟩ else none)
        0 0 1 ⟨7, 2, 2, [[[1, 1], [2, 2]]]⟩ ⟨7, 2, 2, [[[5, 5], [6, 6]]]⟩
        (by decide) (by decide) (by decide)).2.2.1 (by decide) rfl rfl rfl⟩

/-! ## `BestVideoSource::GetFrameIsTFF` (lines 1356-1368) -/

/-- The default record used for (unreachable) out-of-bounds index
accesses in the model. -/
def dummyFrame : FrameInfo := ⟨0, 0, false, false, []⟩

/-- `BestVideoSource::GetFrameIsTFF` (lines 1356-1368) over explicit
engine state: the range guard returns `false`, then either the indexed
`TFF` flag (plain mode or RFF unused) or the comparison of the RFF field
sources. -/
def getFrameIsTFF (frames : List FrameInfo) (numFrames numRFF : Int)
    (rffUnused : Bool) (N : Int) (rff : Bool) : Bool :=
  if N < 0 ∨ (N ≥ numFrames ∧ ¬rff) ∨ (N ≥ numRFF ∧ rff) then false
  else if ¬rff ∨ rffUnused then (frames.getD N.toNat dummyFrame).tff
  else decide ((initializeRFF frames).top N < (initializeRFF frames).bottom N)

/-- `GetFrameIsTFF` as called on a constructed engine: `NumFrames` is the
index length, `NumRFFFrames` comes from the field-sum formula, and
`RFFState == rffUnused` exactly when the two counts agree (constructor
lines 796-807). -/
def engineGetFrameIsTFF (frames : List FrameInfo) (N : Int) (rff : Bool) : Bool :=
  getFrameIsTFF frames frames.length (numRFFFrames frames)
    (decide ((frames.length : Int) = numRFFFrames frames)) N rff

/-- C10: `GetFrameIsTFF(N, rff)` returns `false` rather than failing for
every out-of-range `N` (negative, or past `num_frames` when `rff` is
unset, or past `num_rff_frames` when it is set); for in-range `N` it
returns the indexed `top_field_first` flag when `rff` is unset or RFF is
unused, and otherwise reports whether the RFF frame's top field comes
from an earlier source frame than its bottom field. -/
theorem c10_getFrameIsTFF (frames : List FrameInfo) (N : Int) (rff : Bool) :
    ((N < 0 ∨ (rff = false ∧ N ≥ frames.length) ∨
        (rff = true ∧ N ≥ numRFFFrames frames)) →
      engineGetFrameIsTFF frames N rff = false) ∧
      (0 ≤ N → N < frames.length → rff = false →
        engineGetFrameIsTFF frames N rff = (frames.getD N.toNat dummyFrame).tff) ∧
      (0 ≤ N → N < numRFFFrames frames → rff = true →
        (frames.length : Int) = numRFFFrames frames →
        engineGetFrameIsTFF frames N rff = (frames.getD N.toNat dummyFrame).tff) ∧
      (0 ≤ N → N < numRFFFrames frames → rff = true →
        (frames.length : Int) ≠ numRFFFrames frames →
        engineGetFrameIsTFF frames N rff =
          decide ((initializeRFF frames).top N < (initializeRFF frames).bottom N)) := by
  refine ⟨?_, ?_, ?_, ?_⟩
  · intro h
    cases rff <;>
    · simp only [engineGetFrameIsTFF, getFrameIsTFF]
      rw [if_pos (by simpa using by tauto)]
  · intro h0 hlt hrff
    subst hrff
    simp only [engineGetFrameIsTFF, getFrameIsTFF]
    rw [if_neg (by simpa using by omega), if_pos (by simp)]
  · intro h0 hlt hrff hun
    subst hrff
    simp only [engineGetFrameIsTFF, getFrameIsTFF]
    rw [if_neg (by simpa using by omega), if_pos (by simp [hun])]
  · intro h0 hlt hrff hun
    subst hrff
    simp only [engineGetFrameIsTFF, getFrameIsTFF]
    rw [if_neg (by simpa using by omega), if_neg (by simp [hun])]

/-- Witness for `c10_getFrameIsTFF` on a telecined two-frame index
(`num_rff_frames = 3 ≠ 2`): N = -1 is rejected with `false`, and the RFF
query at N = 0 compares the field sources. -/
theorem c10_getFrameIsTFF_witness :
    (((-1 : Int) < 0 ∨ (false = false ∧ (-1 : Int) ≥
          ([(⟨0, 2, false, true, [1]⟩ : FrameInfo), ⟨1, 0, false, true, [2]⟩] :
            List FrameInfo).length) ∨
        (false = true ∧ (-1 : Int) ≥
          numRFFFrames [⟨0, 2, false, true, [1]⟩, ⟨1, 0, false, true, [2]⟩])) ∧
      engineGetFrameIsTFF [⟨0, 2, false, true, [1]⟩, ⟨1, 0, false, true, [2]⟩]
          (-1) false = false) ∧
      ((0 : Int) ≤ 0 ∧
        (0 : Int) < numRFFFrames [⟨0, 2, false, true, [1]⟩, ⟨1, 0, false, true, [2]⟩] ∧
        (([(⟨0, 2, false, true, [1]⟩ : FrameInfo), ⟨1, 0, false, true, [2]⟩] :
            List FrameInfo).length : Int) ≠
          numRFFFrames [⟨0, 2, false, true, [1]⟩, ⟨1, 0, false, true, [2]⟩] ∧
        engineGetFrameIsTFF [⟨0, 2, false, true, [1]⟩, ⟨1, 0, false, true, [2]⟩] 0 true =
          decide ((initializeRFF [⟨0, 2, false, true, [1]⟩,
              ⟨1, 0, false, true, [2]⟩]).top 0 <
            (initializeRFF [⟨0, 2, false, true, [1]⟩, ⟨1, 0, false, true, [2]⟩]).bottom 0)) :=
  ⟨⟨by decide,
      (c10_getFrameIsTFF [⟨0, 2, false, true, [1]⟩, ⟨1, 0, false, true, [2]⟩]
          (-1) false).1 (by decide)⟩,
    ⟨by decide, by decide, by decide,
      (c10_getFrameIsTFF [⟨0, 2, false, true, [1]⟩, ⟨1, 0, false, true, [2]⟩]
          0 true).2.2.2 (by decide) (by decide) (by decide) (by decide)⟩⟩

/-! ## Seek-and-verify state machine (`BestVideoSource::SeekAndDecode`,
lines 956-1085, and the hash-mismatch retry branch of
`GetFrameLinearInternal`, lines 1159-1183) -/

/-- Modelled from the spec: the constant `RetrySeekAttempts` is declared
in `videosource.h`, which is not among the sources here; the spec fixes
`RetrySeekAttempts = 3`. -/
def RetrySeekAttempts : Nat := 3

/-- The scan loop of `BestVideoSource::GetSeekFrame` (lines 907-914):
`k` iterations downward from `i`. -/
def getSeekFrameAux (frames : List FrameInfo) (bad : List Int) : Nat → Int → Int
  | 0, _ => -1
  | k + 1, i =>
    if (frames.getD i.toNat dummyFrame).keyFrame = true ∧
        (frames.getD i.toNat dummyFrame).pts ≠ AV_NOPTS_VALUE ∧ ¬ bad.contains i then i
    else getSeekFrameAux frames bad k (i - 1)

/-- `BestVideoSource::GetSeekFrame(N)` (lines 907-914): the latest frame
index in `[100, N - PreRoll]` that is a keyframe, has a usable PTS and is
not blacklisted; `-1` when none exists. -/
def getSeekFrame (frames : List FrameInfo) (preRoll : Int) (bad : List Int) (N : Int) : Int :=
  getSeekFrameAux frames bad (N - preRoll - 99).toNat (N - preRoll)

/-- The decoder behavior `SeekAndDecode` can observe: whether the demuxer
accepts a seek to the PTS of a given seek frame, and the finite stream of
frame hashes the decoder yields afterwards. -/
structure SeekWorld where
  frames : List FrameInfo
  preRoll : Int
  seekAccepted : Int → Bool
  streamAfterSeek : Int → List FrameHash

/-- The hash-window comparison of the match loop (lines 991-997): every
hash of `mf` agrees with the index records starting at `i`. -/
def hashesMatchAt (frames : List FrameInfo) (mf : List FrameHash) (i : Nat) : Bool :=
  (List.range mf.length).all
    (fun j => (frames.getD (i + j) dummyFrame).hash == mf.getD j [])

/-- The candidate set `Matches` built for a window `mf` (lines 988-997);
the C++ loop runs `i` from 0 through `Frames.size() - mf.size()` and
assumes `mf.size() ≤ Frames.size()`. -/
def prefixMatches (frames : List FrameInfo) (mf : List FrameHash) : List Nat :=
  (List.range (frames.length - mf.length + 1)).filter (hashesMatchAt frames mf)

/-- Exit of the decode-and-match loop: either a retry is needed
(no decodable frame, no suitable candidate, or ambiguity), or a unique
match `M` was identified with `len` frames decoded. -/
inductive MatchExit where
  | retryNeeded
  | unique (M : Nat) (len : Nat)
  deriving DecidableEq, Repr

/-- The `while (true)` decode-and-match loop of `SeekAndDecode`
(lines 965-1080) over the remaining decoder stream, accumulating
`MatchFrames` in `mf`; the end-of-stream case checks the single window
ending at the last index record (lines 998-1004). -/
def matchLoop (frames : List FrameInfo) (N : Int) :
    List FrameHash → List FrameHash → MatchExit
  | mf, [] =>
    if mf.isEmpty then MatchExit.retryNeeded
    else
      let i := frames.length - mf.length
      let cands := if hashesMatchAt frames mf i then [i] else []
      if ¬ cands.any (fun m => (m : Int) ≤ N) then MatchExit.retryNeeded
      else MatchExit.unique i mf.length
  | mf, F :: rest =>
    let mf2 := mf ++ [F]
    let cands := prefixMatches frames mf2
    let undet := decide (cands.length > 1) && decide (mf2.length ≥ 10)
    if ¬ cands.any (fun m => (m : Int) ≤ N) ∨ undet = true then MatchExit.retryNeeded
    else if cands.length = 1 then MatchExit.unique (cands.headD 0) mf2.length
    else matchLoop frames N mf2 rest

/-- Outcome of `SeekAndDecode` as far as control flow is concerned. -/
inductive SeekOutcome where
  | frameReturned
  | continueLinear (seekFrame : Int)
  | freshLinear
  | linearModeSet
  deriving DecidableEq, Repr

/-- Result of the state machine: the outcome, the recursion depth at the
exit point, and the bad-seek blacklist at exit. -/
structure SeekResult where
  outcome : SeekOutcome
  exitDepth : Nat
  blacklist : List Int

/-- `BestVideoSource::SeekAndDecode(N, SeekFrame, Decoder, Depth)`
(lines 956-1085).  A rejected seek forces linear mode (lines 957-961);
a failed or ambiguous match blacklists the seek frame and, only while
`Depth < RetrySeekAttempts`, retries at `GetSeekFrame(SeekFrame - 100)`
with depth + 1 (falling back to a fresh linear decode when that lands
inside the first 100 frames); an exhausted retry budget forces linear
mode; a unique match returns the target frame when it lies within the
matched window and otherwise hands over to the linear path. -/
def seekAndDecode (w : SeekWorld) (bad : List Int) (N SF : Int) (depth : Nat) :
    SeekResult :=
  if w.seekAccepted SF = false then ⟨SeekOutcome.linearModeSet, depth, bad⟩
  else
    match matchLoop w.frames N [] (w.streamAfterSeek SF) with
    | MatchExit.retryNeeded =>
      let bad2 := SF :: bad
      if h : depth < RetrySeekAttempts then
        let SFN := getSeekFrame w.frames w.preRoll bad2 (SF - 100)
        if SFN < 100 then ⟨SeekOutcome.freshLinear, depth, bad2⟩
        else seekAndDecode w bad2 N SFN (depth + 1)
      else ⟨SeekOutcome.linearModeSet, depth, bad2⟩
    | MatchExit.unique M len =>
      if (M : Int) ≤ N ∧ N < (M : Int) + len then ⟨SeekOutcome.frameReturned, depth, bad⟩
      else ⟨SeekOutcome.continueLinear SF, depth, bad⟩
  termination_by RetrySeekAttempts - depth
  decreasing_by omega

/-- The hash-mismatch retry branch of `GetFrameLinearInternal`
(lines 1159-1183), taken when a decoded frame of a seeked decoder fails
verification: blacklist the seek frame and apply the same depth-gated
retry policy. -/
def linearRetryAfterBadFrame (w : SeekWorld) (bad : List Int) (N SF : Int)
    (depth : Nat) : SeekResult :=
  let bad2 := SF :: bad
  if depth < RetrySeekAttempts then
    let SFN := getSeekFrame w.frames w.preRoll bad2 (SF - 100)
    if SFN < 100 then ⟨SeekOutcome.freshLinear, depth, bad2⟩
    else seekAndDecode w bad2 N SFN (depth + 1)
  else ⟨SeekOutcome.linearModeSet, depth, bad2⟩

lemma seekAndDecode_depth_bounds_aux (w : SeekWorld) :
    ∀ (fuel : Nat) (bad : List Int) (N SF : Int) (depth : Nat),
      RetrySeekAttempts - depth ≤ fuel →
      depth ≤ (seekAndDecode w bad N SF depth).exitDepth ∧
        (seekAndDecode w bad N SF depth).exitDepth ≤ max depth RetrySeekAttempts := by
  intro fuel
  induction fuel with
  | zero =>
    intro bad N SF depth hf
    rw [seekAndDecode.eq_def]
    dsimp only
    split
    · simp
    · split
      · split
        · split <;> (simp_all; try omega)
        · simp
      · split <;> simp
  | succ fuel ih =>
    intro bad N SF depth hf
    rw [seekAndDecode.eq_def]
    dsimp only
    split
    · simp
    · split
      · split
        · split
          · simp
          · rename_i hdep hSFN
            have hrec := ih (SF :: bad) N
              (getSeekFrame w.frames w.preRoll (SF :: bad) (SF - 100)) (depth + 1)
              (by omega)
            constructor <;> omega
        · simp
      · split <;> simp

/-- C2: for every `GetFrame` request, the seek-and-verify machine retries
a failed or ambiguous seek only while the depth parameter is below
`RetrySeekAttempts = 3` and each retry strictly increases it, so starting
from depth `d ≤ 3` the exit depth never exceeds 3 (at most `3 - d`
retries happen, 3 from a fresh request at depth 0) — this holds for
`SeekAndDecode` itself and for the retry branch of
`GetFrameLinearInternal`; and once the attempts are exhausted
(`depth = 3`) a retry-requiring failure switches the engine to linear
mode (`SetLinearMode`, which is never undone), so the procedure always
terminates (the model is a total function whose recursion is bounded by
`RetrySeekAttempts - depth`). -/
theorem c2_seek_retry_termination (w : SeekWorld) (bad : List Int) (N SF : Int)
    (d : Nat) (hd : d ≤ RetrySeekAttempts) :
    ((seekAndDecode w bad N SF d).exitDepth ≤ RetrySeekAttempts ∧
      d ≤ (seekAndDecode w bad N SF d).exitDepth) ∧
      ((linearRetryAfterBadFrame w bad N SF d).exitDepth ≤ RetrySeekAttempts ∧
        d ≤ (linearRetryAfterBadFrame w bad N SF d).exitDepth) ∧
      (d = RetrySeekAttempts →
        (w.seekAccepted SF = true →
          matchLoop w.frames N [] (w.streamAfterSeek SF) = MatchExit.retryNeeded →
          (seekAndDecode w bad N SF d).outcome = SeekOutcome.linearModeSet) ∧
        (linearRetryAfterBadFrame w bad N SF d).outcome = SeekOutcome.linearModeSet) := by
  have hmain := seekAndDecode_depth_bounds_aux w RetrySeekAttempts bad N SF d (by omega)
  refine ⟨⟨by omega, hmain.1⟩, ?_, ?_⟩
  · rw [linearRetryAfterBadFrame]
    dsimp only
    split
    · split
      · exact ⟨hd, le_refl d⟩
      · have hrec := seekAndDecode_depth_bounds_aux w RetrySeekAttempts (SF :: bad) N
          (getSeekFrame w.frames w.preRoll (SF :: bad) (SF - 100)) (d + 1) (by omega)
        rename_i hdep _
        constructor <;> omega
    · exact ⟨hd, le_refl d⟩
  · intro hexh
    constructor
    · intro hacc hml
      rw [seekAndDecode.eq_def]
      dsimp only
      rw [if_neg (by simp [hacc]), hml]
      rw [dif_neg (by omega)]
    · rw [linearRetryAfterBadFrame]
      dsimp only
      rw [if_neg (by omega)]

/-- Witness for `c2_seek_retry_termination` at depth 0 in a world whose
demuxer rejects every seek. -/
theorem c2_seek_retry_termination_witness :
    (0 ≤ RetrySeekAttempts) ∧
      (((seekAndDecode ⟨[], 0, fun _ => false, fun _ => []⟩ [] 5 3 0).exitDepth ≤
            RetrySeekAttempts ∧
          0 ≤ (seekAndDecode ⟨[], 0, fun _ => false, fun _ => []⟩ [] 5 3 0).exitDepth) ∧
        ((linearRetryAfterBadFrame ⟨[], 0, fun _ => false, fun _ => []⟩ [] 5 3 0).exitDepth ≤
            RetrySeekAttempts ∧
          0 ≤ (linearRetryAfterBadFrame ⟨[], 0, fun _ => false,
              fun _ => []⟩ [] 5 3 0).exitDepth) ∧
        (0 = RetrySeekAttempts →
          ((⟨[], 0, fun _ => false, fun _ => []⟩ : SeekWorld).seekAccepted 3 = true →
            matchLoop ([] : List FrameInfo) 5 []
                ((⟨[], 0, fun _ => false, fun _ => []⟩ : SeekWorld).streamAfterSeek 3) =
              MatchExit.retryNeeded →
            (seekAndDecode ⟨[], 0, fun _ => false, fun _ => []⟩ [] 5 3 0).outcome =
              SeekOutcome.linearModeSet) ∧
          (linearRetryAfterBadFrame ⟨[], 0, fun _ => false, fun _ => []⟩ [] 5 3 0).outcome =
            SeekOutcome.linearModeSet)) :=
  ⟨by decide, c2_seek_retry_termination ⟨[], 0, fun _ => false, fun _ => []⟩ [] 5 3 0 (by decide)⟩

/-! ## Index persistence (`WriteVideoTrackIndex`, lines 1286-1313, and
`ReadVideoTrackIndex`, lines 1315-1354).  The byte-level primitives
(`WriteInt`, `WriteInt64`, `WriteString`, `WriteBSHeader` and the
corresponding readers) are declared in `bsshared.h` but implemented in
`bsshared.cpp`, which is not among the sources; they are modelled from
the spec: binary little-endian, `lp_string` = `i32` length + bytes,
header = magic "BS2V" + version. -/

/-- A file byte (valid values 0..255). -/
abbrev Byte := Nat

/-- Modelled from the spec: little-endian base-256 digits of `n`, fixed
width `w` (the missing `bsshared.cpp` writers; "Endianness: little"). -/
def encodeNatLE : Nat → Nat → List Byte
  | 0, _ => []
  | w + 1, n => (n % 256) :: encodeNatLE w (n / 256)

/-- Modelled from the spec: little-endian base-256 value of a byte
string. -/
def decodeNatLE : List Byte → Nat
  | [] => 0
  | b :: rest => b + 256 * decodeNatLE rest

/-- Modelled from the spec: `WriteInt` (`w = 4`) / `WriteInt64`
(`w = 8`): two's-complement little-endian encoding of width `w`. -/
def encodeIntLE (w : Nat) (v : Int) : List Byte :=
  encodeNatLE w (v % (2 ^ (8 * w))).toNat

/-- Modelled from the spec: `ReadInt` / `ReadInt64`: decode `w` bytes as
a two's-complement little-endian integer. -/
def decodeIntLE (w : Nat) (bytes : List Byte) : Int :=
  let n := decodeNatLE bytes
  if (n : Int) < 2 ^ (8 * w - 1) then (n : Int) else (n : Int) - 2 ^ (8 * w)

lemma encodeNatLE_length (w n : Nat) : (encodeNatLE w n).length = w := by
  induction w generalizing n with
  | zero => rfl
  | succ w ih => simp [encodeNatLE, ih]

lemma decodeNatLE_encodeNatLE (w n : Nat) :
    decodeNatLE (encodeNatLE w n) = n % 2 ^ (8 * w) := by
  induction w generalizing n with
  | zero => simp [encodeNatLE, decodeNatLE, Nat.mod_one]
  | succ w ih =>
    have hpow : 2 ^ (8 * (w + 1)) = 256 * 2 ^ (8 * w) := by
      have h8 : 8 * (w + 1) = 8 + 8 * w := by ring
      rw [h8, pow_add]
      norm_num
    rw [encodeNatLE, decodeNatLE, ih, hpow, Nat.mod_mul]

lemma decodeIntLE_encodeIntLE (w : Nat) (hw : 1 ≤ w) (v : Int)
    (h1 : -(2 ^ (8 * w - 1)) ≤ v) (h2 : v < 2 ^ (8 * w - 1)) :
    decodeIntLE w (encodeIntLE w v) = v := by
  have hsplit : (2 : Int) ^ (8 * w) = 2 ^ (8 * w - 1) * 2 := by
    have h8 : 8 * w = (8 * w - 1) + 1 := by omega
    conv_lhs => rw [h8]
    rw [pow_succ]
  have hpos : (0 : Int) < 2 ^ (8 * w - 1) := by positivity
  have hEpos : (0 : Int) < 2 ^ (8 * w) := by positivity
  have hm0 : 0 ≤ v % 2 ^ (8 * w) := Int.emod_nonneg v (by omega)
  have hm1 : v % 2 ^ (8 * w) < 2 ^ (8 * w) := Int.emod_lt_of_pos v hEpos
  have hmodval : v % 2 ^ (8 * w) = if 0 ≤ v then v else v + 2 ^ (8 * w) := by
    split_ifs with hs
    · exact Int.emod_eq_of_lt hs (by omega)
    · have : (v + 2 ^ (8 * w) * 1) % 2 ^ (8 * w) = v % 2 ^ (8 * w) :=
        Int.add_mul_emod_self_left v (2 ^ (8 * w)) 1
      rw [← this, mul_one]
      exact Int.emod_eq_of_lt (by omega) (by omega)
  have hcastpow : (((2 : Nat) ^ (8 * w) : Nat) : Int) = 2 ^ (8 * w) := by push_cast; rfl
  have hnat : ((v % 2 ^ (8 * w)).toNat : Int) = v % 2 ^ (8 * w) :=
    Int.toNat_of_nonneg hm0
  have hlt : (v % 2 ^ (8 * w)).toNat < 2 ^ (8 * w) := by omega
  simp only [decodeIntLE, encodeIntLE]
  rw [decodeNatLE_encodeNatLE, Nat.mod_eq_of_lt hlt, hnat]
  split_ifs with hbr <;> omega

/-- Modelled from the spec: sequential `fread` of exactly `k` bytes;
fails at end of file. -/
def readBytes (k : Nat) (s : List Byte) : Option (List Byte × List Byte) :=
  if k ≤ s.length then some (s.take k, s.drop k) else none

/-- Modelled from the spec: `ReadInt` (`w = 4`) / `ReadInt64` (`w = 8`). -/
def readIntW (w : Nat) (s : List Byte) : Option (Int × List Byte) :=
  match readBytes w s with
  | none => none
  | some (bs, rest) => some (decodeIntLE w bs, rest)

/-- Modelled from the spec: `WriteString` writes `len : i32` then the
raw bytes (`lp_string`). -/
def writeLPString (t : List Byte) : List Byte :=
  encodeIntLE 4 t.length ++ t

/-- Modelled from the spec: `ReadString` reads `len : i32` then `len`
bytes. -/
def readLPString (s : List Byte) : Option (List Byte × List Byte) :=
  match readIntW 4 s with
  | none => none
  | some (len, s1) => if len < 0 then none else readBytes len.toNat s1

/-- Modelled from the spec: the video cache-file magic "BS2V". -/
def bsVideoMagic : List Byte := [66, 83, 50, 86]

/-- Modelled from the spec: the index format version number written
after the magic; its concrete value is irrelevant to the claims as both
writer and reader use the same constant. -/
def bsIndexVersion : Int := 5

/-- Modelled from the spec: `WriteBSHeader(F, true)`. -/
def writeBSHeader : List Byte := bsVideoMagic ++ encodeIntLE 4 bsIndexVersion

/-- Modelled from the spec: `ReadBSHeader(F, true)` accepts exactly a
matching magic and version. -/
def readBSHeader (s : List Byte) : Option (List Byte) :=
  match readBytes 4 s with
  | none => none
  | some (m, s1) =>
    if m ≠ bsVideoMagic then none
    else match readIntW 4 s1 with
      | none => none
      | some (ver, s2) => if ver ≠ bsIndexVersion then none else some s2

/-- One demuxer-option entry: key and value byte strings. -/
abbrev OptEntry := List Byte × List Byte

/-- `std::map` insert-or-assign into the entry list kept sorted by key
(the reader runs `IndexLAVFOptions[Key] = ReadString(F)`). -/
def mapInsert (k v : List Byte) : List OptEntry → List OptEntry
  | [] => [(k, v)]
  | (k2, v2) :: rest =>
    if k < k2 then (k, v) :: (k2, v2) :: rest
    else if k = k2 then (k, v) :: rest
    else (k2, v2) :: mapInsert k v rest

/-- The option-reading loop of `ReadVideoTrackIndex` (lines 1329-1334):
read `n` key/value pairs into the map `m`. -/
def readOptPairs : Nat → List Byte → List OptEntry →
    Option (List OptEntry × List Byte)
  | 0, s, m => some (m, s)
  | n + 1, s, m =>
    match readLPString s with
    | none => none
    | some (k, s1) =>
      match readLPString s1 with
      | none => none
      | some (v, s2) => readOptPairs n s2 (mapInsert k v m)

/-- One frame record as written by lines 1305-1310: 8 raw hash bytes,
`pts : i64`, `repeat_pict : i32`, `flags : i32` with bit 0 = key frame
and bit 1 = TFF. -/
def writeFrameRecord (f : FrameInfo) : List Byte :=
  f.hash ++ encodeIntLE 8 f.pts ++ encodeIntLE 4 f.repeatPict ++
    encodeIntLE 4 ((if f.keyFrame then 1 else 0) + 2 * (if f.tff then 1 else 0))

/-- The frame-reading loop of `ReadVideoTrackIndex` (lines 1341-1351);
`flags % 2` and `flags % 4` extract the two's-complement low bits. -/
def readFrames : Nat → List Byte → List FrameInfo →
    Option (List FrameInfo × List Byte)
  | 0, s, acc => some (acc.reverse, s)
  | n + 1, s, acc =>
    match readBytes 8 s with
    | none => none
    | some (h, s1) =>
      match readIntW 8 s1 with
      | none => none
      | some (pts, s2) =>
        match readIntW 4 s2 with
        | none => none
        | some (rep, s3) =>
          match readIntW 4 s3 with
          | none => none
          | some (flags, s4) =>
            readFrames n s4
              (⟨pts, rep, decide (flags % 2 = 1), decide (2 ≤ flags % 4), h⟩ :: acc)

/-- The parameters `ReadVideoTrackIndex` validates against the current
engine (source size from `GetFileSize`, track number, variable-format
flag, hw-device name, demuxer options in `std::map` order). -/
structure IndexFileParams where
  sourceSize : Int
  track : Int
  variableFormat : Bool
  hwDevice : List Byte
  opts : List OptEntry
  deriving DecidableEq, Repr

/-- `BestVideoSource::WriteVideoTrackIndex` (lines 1286-1313) as the
byte string it writes. -/
def writeVideoTrackIndex (p : IndexFileParams) (idx : VideoTrackIndex) : List Byte :=
  writeBSHeader
    ++ encodeIntLE 8 p.sourceSize
    ++ encodeIntLE 4 p.track
    ++ encodeIntLE 4 (if p.variableFormat then 1 else 0)
    ++ writeLPString p.hwDevice
    ++ encodeIntLE 4 p.opts.length
    ++ (p.opts.map (fun kv => writeLPString kv.1 ++ writeLPString kv.2)).flatten
    ++ encodeIntLE 8 idx.frames.length
    ++ encodeIntLE 8 idx.lastFrameDuration
    ++ (idx.frames.map writeFrameRecord).flatten

/-- `BestVideoSource::ReadVideoTrackIndex` (lines 1315-1354): validate
header and parameters, then reconstruct the track index; any mismatch
rejects with `none` (the caller then rebuilds).  Negative counts yield
zero loop iterations as in the C++ `for` loops. -/
def readVideoTrackIndex (p : IndexFileParams) (s : List Byte) :
    Option VideoTrackIndex :=
  match readBSHeader s with
  | none => none
  | some s1 =>
    match readIntW 8 s1 with
    | none => none
    | some (sz, s2) =>
      if sz ≠ p.sourceSize then none
      else match readIntW 4 s2 with
      | none => none
      | some (tr, s3) =>
        if tr ≠ p.track then none
        else match readIntW 4 s3 with
        | none => none
        | some (vf, s4) =>
          if vf ≠ (if p.variableFormat then 1 else 0) then none
          else match readLPString s4 with
          | none => none
          | some (hw, s5) =>
            if hw ≠ p.hwDevice then none
            else match readIntW 4 s5 with
            | none => none
            | some (cnt, s6) =>
              match readOptPairs cnt.toNat s6 [] with
              | none => none
              | some (optsRead, s7) =>
                if optsRead ≠ p.opts then none
                else match readIntW 8 s7 with
                | none => none
                | some (nf, s8) =>
                  match readIntW 8 s8 with
                  | none => none
                  | some (lfd, s9) =>
                    match readFrames nf.toNat s9 [] with
                    | none => none
                    | some (frames, _) => some ⟨lfd, frames⟩

lemma readBytes_exact (l r : List Byte) : readBytes l.length (l ++ r) = some (l, r) := by
  rw [readBytes, if_pos (by simp)]
  rw [List.take_left, List.drop_left]

lemma readBytes_exact_len (k : Nat) (l r : List Byte) (h : l.length = k) :
    readBytes k (l ++ r) = some (l, r) := by
  subst h
  exact readBytes_exact l r

lemma readIntW_encode (w : Nat) (hw : 1 ≤ w) (v : Int)
    (h1 : -(2 ^ (8 * w - 1)) ≤ v) (h2 : v < 2 ^ (8 * w - 1)) (r : List Byte) :
    readIntW w (encodeIntLE w v ++ r) = some (v, r) := by
  simp only [readIntW,
    readBytes_exact_len w (encodeIntLE w v) r (by rw [encodeIntLE, encodeNatLE_length]),
    decodeIntLE_encodeIntLE w hw v h1 h2]

lemma readLPString_write (t : List Byte) (h : (t.length : Int) < 2 ^ 31) (r : List Byte) :
    readLPString (writeLPString t ++ r) = some (t, r) := by
  have h2 : (t.length : Int) < 2 ^ (8 * 4 - 1) := by
    norm_num at h ⊢
    omega
  have h1 : -((2 : Int) ^ (8 * 4 - 1)) ≤ (t.length : Int) :=
    le_trans (by norm_num) (Int.natCast_nonneg t.length)
  simp only [writeLPString, List.append_assoc, readLPString,
    readIntW_encode 4 (by norm_num) (t.length : Int) h1 h2 (t ++ r)]
  rw [if_neg (by omega)]
  simpa using readBytes_exact t r

lemma readBSHeader_write (r : List Byte) :
    readBSHeader (writeBSHeader ++ r) = some r := by
  simp only [writeBSHeader, List.append_assoc, readBSHeader,
    readBytes_exact_len 4 bsVideoMagic (encodeIntLE 4 bsIndexVersion ++ r) rfl]
  rw [if_neg (by simp)]
  simp only [readIntW_encode 4 (by norm_num) bsIndexVersion
    (by norm_num [bsIndexVersion]) (by norm_num [bsIndexVersion]) r]
  rw [if_neg (by simp)]

lemma mapInsert_append (k : List Byte) (v : List Byte) (m : List OptEntry)
    (h : ∀ e ∈ m, e.1 < k) : mapInsert k v m = m ++ [(k, v)] := by
  induction m with
  | nil => rfl
  | cons e rest ih =>
    obtain ⟨k2, v2⟩ := e
    have hk2 : k2 < k := h (k2, v2) (by simp)
    rw [mapInsert, if_neg (by exact not_lt_of_gt hk2), if_neg (by exact ne_of_gt hk2)]
    rw [ih (fun e he => h e (by simp [he]))]
    simp

lemma insertAll_sorted (opts : List OptEntry) (acc : List OptEntry)
    (hsorted : opts.Pairwise (fun x y => x.1 < y.1))
    (hacc : ∀ e ∈ acc, ∀ kv ∈ opts, e.1 < kv.1) :
    opts.foldl (fun m kv => mapInsert kv.1 kv.2 m) acc = acc ++ opts := by
  induction opts generalizing acc with
  | nil => simp
  | cons kv rest ih =>
    rw [List.foldl_cons]
    rw [mapInsert_append kv.1 kv.2 acc (fun e he => hacc e he kv (by simp))]
    rw [ih (acc ++ [kv]) (List.Pairwise.of_cons hsorted) ?hinv]
    · simp
    case hinv =>
      intro e he kv2 hkv2
      rcases List.mem_append.mp he with hel | her
      · exact hacc e hel kv2 (by simp [hkv2])
      · have : e = kv := by simpa using her
        subst this
        exact (List.pairwise_cons.mp hsorted).1 kv2 hkv2

lemma readOptPairs_write (opts : List OptEntry) (r : List Byte) (acc : List OptEntry)
    (hlen : ∀ kv ∈ opts, (kv.1.length : Int) < 2 ^ 31 ∧ (kv.2.length : Int) < 2 ^ 31) :
    readOptPairs opts.length
        ((opts.map (fun kv => writeLPString kv.1 ++ writeLPString kv.2)).flatten ++ r)
        acc =
      some (opts.foldl (fun m kv => mapInsert kv.1 kv.2 m) acc, r) := by
  induction opts generalizing acc with
  | nil => simp [readOptPairs]
  | cons kv rest ih =>
    obtain ⟨hk, hv⟩ := hlen kv (by simp)
    simp only [List.map_cons, List.flatten_cons, List.length_cons, List.append_assoc]
    rw [readOptPairs]
    simp only [readLPString_write kv.1 hk, readLPString_write kv.2 hv,
      ih (mapInsert kv.1 kv.2 acc) (fun e he => hlen e (by simp [he]))]
    rfl

lemma readFrames_write (frames : List FrameInfo) (r : List Byte) (acc : List FrameInfo)
    (hf : ∀ f ∈ frames, f.hash.length = 8 ∧
      -(2 ^ 63) ≤ f.pts ∧ f.pts < 2 ^ 63 ∧
      -(2 ^ 31) ≤ f.repeatPict ∧ f.repeatPict < 2 ^ 31) :
    readFrames frames.length ((frames.map writeFrameRecord).flatten ++ r) acc =
      some (acc.reverse ++ frames, r) := by
  induction frames generalizing acc with
  | nil => simp [readFrames]
  | cons f rest ih =>
    obtain ⟨hh, hp1, hp2, hr1, hr2⟩ := hf f (by simp)
    simp only [List.map_cons, List.flatten_cons, List.length_cons, writeFrameRecord,
      List.append_assoc]
    have hp1b : -(2 ^ (8 * 8 - 1)) ≤ f.pts := by norm_num at hp1 ⊢; omega
    have hp2b : f.pts < 2 ^ (8 * 8 - 1) := by norm_num at hp2 ⊢; omega
    have hr1b : -(2 ^ (8 * 4 - 1)) ≤ f.repeatPict := by norm_num at hr1 ⊢; omega
    have hr2b : f.repeatPict < 2 ^ (8 * 4 - 1) := by norm_num at hr2 ⊢; omega
    have hmk : (⟨f.pts, f.repeatPict,
        decide (((if f.keyFrame then (1 : Int) else 0) + 2 * (if f.tff then 1 else 0)) % 2 = 1),
        decide (2 ≤ ((if f.keyFrame then (1 : Int) else 0) + 2 * (if f.tff then 1 else 0)) % 4),
        f.hash⟩ : FrameInfo) = f := by
      obtain ⟨pts0, rep0, kf0, tff0, hash0⟩ := f
      cases kf0 <;> cases tff0 <;> simp
    rw [readFrames]
    simp only [show ∀ r2, readBytes 8 (f.hash ++ r2) = some (f.hash, r2) from
        fun r2 => readBytes_exact_len 8 f.hash r2 hh,
      readIntW_encode 8 (by norm_num) f.pts hp1b hp2b,
      readIntW_encode 4 (by norm_num) f.repeatPict hr1b hr2b,
      readIntW_encode 4 (by norm_num)
        ((if f.keyFrame then 1 else 0) + 2 * (if f.tff then 1 else 0))
        (by cases f.keyFrame <;> cases f.tff <;> norm_num)
        (by cases f.keyFrame <;> cases f.tff <;> norm_num)]
    rw [hmk, ih (f :: acc) (fun g hg => hf g (by simp [hg]))]
    simp

/-- Hypotheses making an index file representable: every written value
fits its fixed-width field. -/
def Representable (p : IndexFileParams) (idx : VideoTrackIndex) : Prop :=
  -(2 ^ 63) ≤ p.sourceSize ∧ p.sourceSize < 2 ^ 63 ∧
    -(2 ^ 31) ≤ p.track ∧ p.track < 2 ^ 31 ∧
    (p.hwDevice.length : Int) < 2 ^ 31 ∧
    (p.opts.length : Int) < 2 ^ 31 ∧
    (∀ kv ∈ p.opts, (kv.1.length : Int) < 2 ^ 31 ∧ (kv.2.length : Int) < 2 ^ 31) ∧
    p.opts.Pairwise (fun x y => x.1 < y.1) ∧
    (idx.frames.length : Int) < 2 ^ 63 ∧
    -(2 ^ 63) ≤ idx.lastFrameDuration ∧ idx.lastFrameDuration < 2 ^ 63 ∧
    ∀ f ∈ idx.frames, f.hash.length = 8 ∧
      -(2 ^ 63) ≤ f.pts ∧ f.pts < 2 ^ 63 ∧
      -(2 ^ 31) ≤ f.repeatPict ∧ f.repeatPict < 2 ^ 31

lemma read_write_characterization (p q : IndexFileParams) (idx : VideoTrackIndex)
    (hrep : Representable p idx) :
    readVideoTrackIndex q (writeVideoTrackIndex p idx) =
      (if p.sourceSize ≠ q.sourceSize then none
        else if p.track ≠ q.track then none
        else if (if p.variableFormat then (1 : Int) else 0) ≠
            (if q.variableFormat then (1 : Int) else 0) then none
        else if p.hwDevice ≠ q.hwDevice then none
        else if p.opts ≠ q.opts then none
        else some idx) := by
  obtain ⟨hsz1, hsz2, htr1, htr2, hhw, hoptlen, hopts, hsorted, hnf, hlfd1, hlfd2,
    hframes⟩ := hrep
  have hsz1b : -(2 ^ (8 * 8 - 1)) ≤ p.sourceSize := by norm_num at hsz1 ⊢; omega
  have hsz2b : p.sourceSize < 2 ^ (8 * 8 - 1) := by norm_num at hsz2 ⊢; omega
  have htr1b : -(2 ^ (8 * 4 - 1)) ≤ p.track := by norm_num at htr1 ⊢; omega
  have htr2b : p.track < 2 ^ (8 * 4 - 1) := by norm_num at htr2 ⊢; omega
  have hvf1b : -(2 ^ (8 * 4 - 1)) ≤ (if p.variableFormat then (1 : Int) else 0) := by
    cases p.variableFormat <;> norm_num
  have hvf2b : (if p.variableFormat then (1 : Int) else 0) < 2 ^ (8 * 4 - 1) := by
    cases p.variableFormat <;> norm_num
  have hol1b : -(2 ^ (8 * 4 - 1)) ≤ (p.opts.length : Int) :=
    le_trans (by norm_num) (Int.natCast_nonneg _)
  have hol2b : (p.opts.length : Int) < 2 ^ (8 * 4 - 1) := by norm_num at hoptlen ⊢; omega
  have hnf1b : -(2 ^ (8 * 8 - 1)) ≤ (idx.frames.length : Int) :=
    le_trans (by norm_num) (Int.natCast_nonneg _)
  have hnf2b : (idx.frames.length : Int) < 2 ^ (8 * 8 - 1) := by norm_num at hnf ⊢; omega
  have hlfd1b : -(2 ^ (8 * 8 - 1)) ≤ idx.lastFrameDuration := by norm_num at hlfd1 ⊢; omega
  have hlfd2b : idx.lastFrameDuration < 2 ^ (8 * 8 - 1) := by norm_num at hlfd2 ⊢; omega
  simp only [writeVideoTrackIndex, List.append_assoc]
  rw [readVideoTrackIndex]
  simp only [readBSHeader_write,
    readIntW_encode 8 (by norm_num) p.sourceSize hsz1b hsz2b,
    readIntW_encode 4 (by norm_num) p.track htr1b htr2b,
    readIntW_encode 4 (by norm_num) (if p.variableFormat then (1 : Int) else 0) hvf1b hvf2b,
    readLPString_write p.hwDevice hhw,
    readIntW_encode 4 (by norm_num) (p.opts.length : Int) hol1b hol2b,
    readIntW_encode 8 (by norm_num) (idx.frames.length : Int) hnf1b hnf2b,
    readIntW_encode 8 (by norm_num) idx.lastFrameDuration hlfd1b hlfd2b,
    Int.toNat_natCast,
    readOptPairs_write p.opts _ [] hopts,
    show readFrames idx.frames.length
        (List.map writeFrameRecord idx.frames).flatten [] = some (idx.frames, []) from
      by simpa using readFrames_write idx.frames [] [] hframes,
    insertAll_sorted p.opts [] hsorted (by simp)]
  simp

/-- C7: writing a track index to the cache file and reading it back with
the same source size, track number, variable-format flag, hw-device
string, and demuxer options map succeeds and reconstructs the identical
TrackIndex (every frame record's pts, repeat_pict, key/tff flags, and
hash, plus last_frame_duration); a mismatch in any of those parameters
makes the read reject so the caller rebuilds. -/
theorem c7_index_persistence (p q : IndexFileParams) (idx : VideoTrackIndex)
    (hrep : Representable p idx) :
    readVideoTrackIndex p (writeVideoTrackIndex p idx) = some idx ∧
      ((q.sourceSize ≠ p.sourceSize ∨ q.track ≠ p.track ∨
          q.variableFormat ≠ p.variableFormat ∨ q.hwDevice ≠ p.hwDevice ∨
          q.opts ≠ p.opts) →
        readVideoTrackIndex q (writeVideoTrackIndex p idx) = none) := by
  constructor
  · rw [read_write_characterization p p idx hrep]
    simp
  · intro hdiff
    rw [read_write_characterization p q idx hrep]
    by_cases h1 : p.sourceSize = q.sourceSize
    case neg => rw [if_pos h1]
    rw [if_neg (by simp [h1])]
    by_cases h2 : p.track = q.track
    case neg => rw [if_pos h2]
    rw [if_neg (by simp [h2])]
    by_cases h3 : p.variableFormat = q.variableFormat
    case neg =>
      rw [if_pos ?hvf]
      case hvf =>
        cases hp : p.variableFormat <;> cases hq : q.variableFormat <;>
          simp_all
    rw [if_neg (by simp [h3])]
    by_cases h4 : p.hwDevice = q.hwDevice
    case neg => rw [if_pos h4]
    rw [if_neg (by simp [h4])]
    have h5 : p.opts ≠ q.opts := by
      rcases hdiff with h | h | h | h | h <;> first
        | (exact absurd h1.symm h) | (exact absurd h2.symm h)
        | (exact absurd h3.symm h) | (exact absurd h4.symm h)
        | (exact fun he => h (he ▸ rfl))
    rw [if_pos h5]

instance (p : IndexFileParams) (idx : VideoTrackIndex) :
    Decidable (Representable p idx) := by
  unfold Representable
  infer_instance

/-- Sample engine parameters for the persistence witness. -/
def sampleParams : IndexFileParams := ⟨100, 0, false, [104, 119], [([97], [98])]⟩

/-- The same parameters with a different track number. -/
def sampleParamsAlt : IndexFileParams := ⟨100, 1, false, [104, 119], [([97], [98])]⟩

/-- A one-frame track index for the persistence witness. -/
def sampleIndex : VideoTrackIndex := ⟨40, [⟨7, 0, true, false, [1, 2, 3, 4, 5, 6, 7, 8]⟩]⟩

/-- Witness for `c7_index_persistence`: a concrete index round-trips, and
reading it back with a different track number rejects. -/
theorem c7_index_persistence_witness :
    Representable sampleParams sampleIndex ∧
      readVideoTrackIndex sampleParams (writeVideoTrackIndex sampleParams sampleIndex) =
        some sampleIndex ∧
      (sampleParamsAlt.sourceSize ≠ sampleParams.sourceSize ∨
        sampleParamsAlt.track ≠ sampleParams.track ∨
        sampleParamsAlt.variableFormat ≠ sampleParams.variableFormat ∨
        sampleParamsAlt.hwDevice ≠ sampleParams.hwDevice ∨
        sampleParamsAlt.opts ≠ sampleParams.opts) ∧
      readVideoTrackIndex sampleParamsAlt (writeVideoTrackIndex sampleParams sampleIndex) =
        none :=
  ⟨by decide,
    (c7_index_persistence sampleParams sampleParamsAlt sampleIndex (by decide)).1,
    by decide,
    (c7_index_persistence sampleParams sampleParamsAlt sampleIndex (by decide)).2 (by decide)⟩

/-! ## Time index (`BestVideoSource::GetFrameByTime`, lines 1269-1281,
and `WriteTimecodes`, lines 1370-1380) -/

/-- Truncation toward zero: the effect of `static_cast<int64_t>` on a
real value (line 1270). -/
def ratTruncToZero (x : ℚ) : Int := if 0 ≤ x then ⌊x⌋ else -⌊-x⌋

/-- The target PTS the code computes (line 1270):
`(int64_t)((Time * 1000 * Den) / Num + .001)`; the `double` arithmetic is
modelled as exact rational arithmetic. -/
def targetPTS (time : ℚ) (num den : Int) : Int :=
  ratTruncToZero ((time * 1000 * den) / num + 1 / 1000)

/-- The target PTS in the spec's words (§4.9), which say `round(...)`;
kept for comparison with the code's truncation. -/
def targetPTSSpec (time : ℚ) (num den : Int) : Int :=
  round ((time * 1000 * den) / num + 1 / 1000)

/-- `std::lower_bound` over the PTS column of the index: the first
position whose PTS is not below the target (the search assumes the PTS
column is sorted). -/
def lowerBoundPos (pts : List Int) (target : Int) : Nat :=
  (pts.takeWhile (fun p => decide (p < target))).length

/-- `BestVideoSource::GetFrameByTime` (lines 1269-1281), reduced to the
frame number it fetches: past-the-end falls back to the last frame
(`GetFrame(-1)`, i.e. null, when the index is empty); otherwise the code
returns the insertion-point neighbor unless the left neighbor is
STRICTLY closer to the target. -/
def getFrameByTimeIdx (pts : List Int) (time : ℚ) (num den : Int) : Option Nat :=
  let target := targetPTS time num den
  let pos := lowerBoundPos pts target
  if pos = pts.length then (if pts.length = 0 then none else some (pts.length - 1))
  else if pos = 0 ∨ (pts.getD pos 0 - target).natAbs ≤ (pts.getD (pos - 1) 0 - target).natAbs
    then some pos
  else some (pos - 1)

/-- The behavior the claim describes, following the spec's words: round
the target and give ties to the LEFT neighbor. -/
def getFrameByTimeSpecIdx (pts : List Int) (time : ℚ) (num den : Int) : Option Nat :=
  let target := targetPTSSpec time num den
  let pos := lowerBoundPos pts target
  if pos = pts.length then (if pts.length = 0 then none else some (pts.length - 1))
  else if pos = 0 then some pos
  else if (pts.getD (pos - 1) 0 - target).natAbs ≤ (pts.getD pos 0 - target).natAbs
    then some (pos - 1)
  else some pos

lemma takeWhile_getD_prop (p : Int → Bool) (l : List Int) (j : Nat)
    (hj : j < (l.takeWhile p).length) : p (l.getD j 0) = true := by
  induction l generalizing j with
  | nil => simp at hj
  | cons x xs ih =>
    by_cases hp : p x
    · rw [List.takeWhile_cons_of_pos hp] at hj
      cases j with
      | zero => simpa using hp
      | succ j => simpa using ih j (by simpa using hj)
    · rw [List.takeWhile_cons_of_neg hp] at hj
      simp at hj

lemma takeWhile_length_le (p : Int → Bool) (l : List Int) :
    (l.takeWhile p).length ≤ l.length :=
  List.Sublist.length_le (List.takeWhile_sublist p)

lemma takeWhile_boundary (p : Int → Bool) (l : List Int)
    (h : (l.takeWhile p).length < l.length) :
    p (l.getD (l.takeWhile p).length 0) = false := by
  induction l with
  | nil => simp at h
  | cons x xs ih =>
    by_cases hp : p x
    · rw [List.takeWhile_cons_of_pos hp] at h ⊢
      simpa using ih (by simpa using h)
    · rw [List.takeWhile_cons_of_neg hp]
      simpa using hp

lemma sorted_getD_mono (l : List Int) (hs : l.Pairwise (fun a b => a ≤ b))
    (i j : Nat) (hij : i ≤ j) (hj : j < l.length) : l.getD i 0 ≤ l.getD j 0 := by
  rcases Nat.lt_or_ge i j with hlt | hge
  · have := List.pairwise_iff_get.mp hs ⟨i, by omega⟩ ⟨j, hj⟩ hlt
    rw [List.getD_eq_getElem l 0 (by omega), List.getD_eq_getElem l 0 hj]
    simpa using this
  · have : i = j := by omega
    subst this
    exact le_refl _

/-- C8 counterexample: (tie direction) with pts `[0, 10]` and
`t = 1/200 s` (`time_base = 1/1`) the target is exactly 5, equidistant
from both neighbors: the code returns frame 1 (the insertion-point/right
neighbor) while the claim's tie-to-the-left rule picks frame 0; (rounding)
with `t = 1 s` and `time_base = 16/1` the code truncates `62.501` to
target 62 and returns frame 0 of pts `[62, 63]`, while the claim's
`round` gives 63 and frame 1. -/
theorem c8_getFrameByTime_counterexample :
    getFrameByTimeIdx [0, 10] (1 / 200) 1 1 = some 1 ∧
      getFrameByTimeSpecIdx [0, 10] (1 / 200) 1 1 = some 0 ∧
      getFrameByTimeIdx [62, 63] 1 16 1 = some 0 ∧
      getFrameByTimeSpecIdx [62, 63] 1 16 1 = some 1 := by
  have h1 : targetPTS (1 / 200 : ℚ) 1 1 = 5 := by
    rw [targetPTS, ratTruncToZero, if_pos (by norm_num)]
    rw [Int.floor_eq_iff]
    norm_num
  have h2 : targetPTSSpec (1 / 200 : ℚ) 1 1 = 5 := by
    rw [targetPTSSpec, round_eq]
    rw [Int.floor_eq_iff]
    norm_num
  have h3 : targetPTS 1 16 1 = 62 := by
    rw [targetPTS, ratTruncToZero, if_pos (by norm_num)]
    rw [Int.floor_eq_iff]
    norm_num
  have h4 : targetPTSSpec 1 16 1 = 63 := by
    rw [targetPTSSpec, round_eq]
    rw [Int.floor_eq_iff]
    norm_num
  refine ⟨?_, ?_, ?_, ?_⟩ <;>
    simp only [getFrameByTimeIdx, getFrameByTimeSpecIdx, h1, h2, h3, h4] <;> decide

/-- C8 (amended): `GetFrameByTime` computes the target PTS by TRUNCATING
`(t × 1000 × den) / num + 0.001` toward zero, binary-searches the index
by pts, and — when the pts column is sorted — returns a frame whose pts
is closest to the target among ALL frames, with ties between the two
neighbors of the insertion point going to the insertion-point (right)
neighbor. -/
theorem c8_getFrameByTime_closest (ptsL : List Int) (time : ℚ) (num den : Int)
    (hs : ptsL.Pairwise (fun a b => a ≤ b)) (hne : ptsL ≠ []) :
    ∃ r, getFrameByTimeIdx ptsL time num den = some r ∧ r < ptsL.length ∧
      (∀ j, j < ptsL.length →
        (ptsL.getD r 0 - targetPTS time num den).natAbs ≤
          (ptsL.getD j 0 - targetPTS time num den).natAbs) ∧
      (0 < lowerBoundPos ptsL (targetPTS time num den) →
        lowerBoundPos ptsL (targetPTS time num den) < ptsL.length →
        (ptsL.getD (lowerBoundPos ptsL (targetPTS time num den)) 0 -
            targetPTS time num den).natAbs =
          (ptsL.getD (lowerBoundPos ptsL (targetPTS time num den) - 1) 0 -
            targetPTS time num den).natAbs →
        r = lowerBoundPos ptsL (targetPTS time num den)) := by
  simp only [getFrameByTimeIdx]
  set T := targetPTS time num den with hT
  set pos := lowerBoundPos ptsL T with hpos
  have hlen0 : 0 < ptsL.length := List.length_pos.mpr hne
  have hposle : pos ≤ ptsL.length := takeWhile_length_le _ ptsL
  have hltall : ∀ j, j < pos → ptsL.getD j 0 < T := by
    intro j hj
    have := takeWhile_getD_prop (fun p => decide (p < T)) ptsL j hj
    simpa using this
  have hgepos : pos < ptsL.length → T ≤ ptsL.getD pos 0 := by
    intro hp
    have := takeWhile_boundary (fun p => decide (p < T)) ptsL hp
    simpa using this
  by_cases hA : pos = ptsL.length
  · rw [if_pos hA, if_neg (by omega)]
    refine ⟨ptsL.length - 1, rfl, by omega, ?_, by omega⟩
    intro j hj
    have h1 := hltall j (by omega)
    have h2 := hltall (ptsL.length - 1) (by omega)
    have h3 := sorted_getD_mono ptsL hs j (ptsL.length - 1) (by omega) (by omega)
    omega
  · rw [if_neg hA]
    by_cases hB : pos = 0 ∨
        (ptsL.getD pos 0 - T).natAbs ≤ (ptsL.getD (pos - 1) 0 - T).natAbs
    · rw [if_pos hB]
      refine ⟨pos, rfl, by omega, ?_, fun _ _ _ => rfl⟩
      intro j hj
      rcases Nat.lt_or_ge j pos with hjlt | hjge
      · have hp0 : pos ≠ 0 := by omega
        have hB2 : (ptsL.getD pos 0 - T).natAbs ≤
            (ptsL.getD (pos - 1) 0 - T).natAbs := by
          rcases hB with h | h
          · exact absurd h hp0
          · exact h
        have h1 := hltall j hjlt
        have h2 := hltall (pos - 1) (by omega)
        have h3 := sorted_getD_mono ptsL hs j (pos - 1) (by omega) (by omega)
        omega
      · have h4 := hgepos (by omega)
        have h5 := sorted_getD_mono ptsL hs pos j hjge hj
        omega
    · rw [if_neg hB]
      push_neg at hB
      obtain ⟨hp0, hBgt⟩ := hB
      refine ⟨pos - 1, rfl, by omega, ?_, ?_⟩
      · intro j hj
        rcases Nat.lt_or_ge j pos with hjlt | hjge
        · have h1 := hltall j hjlt
          have h2 := hltall (pos - 1) (by omega)
          have h3 := sorted_getD_mono ptsL hs j (pos - 1) (by omega) (by omega)
          omega
        · have h4 := hgepos (by omega)
          have h5 := sorted_getD_mono ptsL hs pos j hjge hj
          omega
      · intro hc1 hc2 heq
        omega

/-- Witness for `c8_getFrameByTime_closest` on the sorted pts column
`[0, 10]` at `t = 0`. -/
theorem c8_getFrameByTime_witness :
    (([0, 10] : List Int).Pairwise (fun a b => a ≤ b) ∧ ([0, 10] : List Int) ≠ []) ∧
      (∃ r, getFrameByTimeIdx [0, 10] 0 1 1 = some r ∧
        r < ([0, 10] : List Int).length ∧
        (∀ j, j < ([0, 10] : List Int).length →
          (([0, 10] : List Int).getD r 0 - targetPTS 0 1 1).natAbs ≤
            (([0, 10] : List Int).getD j 0 - targetPTS 0 1 1).natAbs) ∧
        (0 < lowerBoundPos [0, 10] (targetPTS 0 1 1) →
          lowerBoundPos [0, 10] (targetPTS 0 1 1) < ([0, 10] : List Int).length →
          (([0, 10] : List Int).getD (lowerBoundPos [0, 10] (targetPTS 0 1 1)) 0 -
              targetPTS 0 1 1).natAbs =
            (([0, 10] : List Int).getD (lowerBoundPos [0, 10] (targetPTS 0 1 1) - 1) 0 -
              targetPTS 0 1 1).natAbs →
          r = lowerBoundPos [0, 10] (targetPTS 0 1 1))) :=
  ⟨⟨by decide, by decide⟩, c8_getFrameByTime_closest [0, 10] 0 1 1 (by decide) (by decide)⟩

/-- One line of the timecode file: the header string or a timestamp
printed by `fprintf(F, "%.02f\n", ...)`, represented as the integer
count of hundredths of a millisecond (two decimals); `%.02f` rounds to
nearest, modelled as round-half-up on the exact rational. -/
inductive TCLine where
  | headerLine (s : String)
  | stamp (centiMs : Int)
  deriving DecidableEq, Repr

/-- The printed value of one frame (line 1377):
`(Iter.PTS * VP.TimeBase.Num) / (double)VP.TimeBase.Den` milliseconds to
two decimals. -/
def formatStamp (pts num den : Int) : TCLine :=
  TCLine.stamp (round (((pts * num : Int) : ℚ) / (den : ℚ) * 100))

/-- `BestVideoSource::WriteTimecodes` (lines 1370-1380): the header line,
then the loop appends one line per indexed frame in order. -/
def writeTimecodes (frames : List FrameInfo) (num den : Int) : List TCLine :=
  frames.foldl (fun acc f => acc ++ [formatStamp f.pts num den])
    [TCLine.headerLine "# timecode format v2"]

lemma foldl_append_map {α β : Type} (g : α → β) (l : List α) (acc : List β) :
    l.foldl (fun a x => a ++ [g x]) acc = acc ++ l.map g := by
  induction l generalizing acc with
  | nil => simp
  | cons x xs ih =>
    rw [List.foldl_cons, ih]
    simp

/-- C9: `WriteTimecodes(path)` emits the header line
`"# timecode format v2"` followed by exactly one line per indexed frame
— the output has `num_frames + 1` lines — and the line for frame `i`
holds `pts × time_base.num / time_base.den` milliseconds printed with
two decimals, in index order. -/
theorem c9_write_timecodes (frames : List FrameInfo) (num den : Int) :
    writeTimecodes frames num den =
      TCLine.headerLine "# timecode format v2" ::
        frames.map (fun f => formatStamp f.pts num den) ∧
      (writeTimecodes frames num den).length = frames.length + 1 ∧
      (writeTimecodes frames num den).getD 0 (TCLine.headerLine "") =
        TCLine.headerLine "# timecode format v2" ∧
      ∀ i, i < frames.length →
        (writeTimecodes frames num den).getD (i + 1) (TCLine.headerLine "") =
          TCLine.stamp
            (round ((((frames.getD i dummyFrame).pts * num : Int) : ℚ) / (den : ℚ) * 100)) := by
  have hmain : writeTimecodes frames num den =
      TCLine.headerLine "# timecode format v2" ::
        frames.map (fun f => formatStamp f.pts num den) := by
    rw [writeTimecodes, foldl_append_map]
    simp
  refine ⟨hmain, ?_, ?_, ?_⟩
  · rw [hmain]
    simp
  · rw [hmain]
    simp
  · intro i hi
    rw [hmain]
    rw [List.getD_cons_succ]
    rw [List.getD_eq_getElem _ _ (by simpa using hi), List.getElem_map,
      List.getD_eq_getElem _ _ hi]
    rfl

/-- Witness for `c9_write_timecodes` on a two-frame index with
`time_base = 125/3` (so frame pts 1 prints 41.67 ms). -/
theorem c9_write_timecodes_witness :
    (0 : Nat) < 2 ∧
      (writeTimecodes [⟨0, 0, true, false, [1]⟩, ⟨1, 0, false, false, [2]⟩] 125 3).getD
          (0 + 1) (TCLine.headerLine "") =
        TCLine.stamp
          (round (((([(⟨0, 0, true, false, [1]⟩ : FrameInfo), ⟨1, 0, false, false, [2]⟩].getD
              0 dummyFrame).pts * 125 : Int) : ℚ) / (3 : ℚ) * 100)) :=
  ⟨by decide,
    (c9_write_timecodes [⟨0, 0, true, false, [1]⟩, ⟨1, 0, false, false, [2]⟩] 125 3).2.2.2
      0 (by decide)⟩

end BestSourceModel
